import Mathlib

/-!
Verification of the rat log-ingestion and session-reconciliation core.

This file gives a shallow embedding of the Python modules
src/rat/claude/watcher.py, src/rat/claude/reader.py and
src/rat/session/tracker.py, and proves properties of the embedded
operations.  Conventions of the embedding:

* Decoded JSON values are modelled by the inductive type Json; Python
  json.loads is modelled by an executable parser json_loads over the JSON
  subset that appears in Claude conversation logs (objects, arrays,
  strings without exotic escapes, integers, booleans, null).
* Python datetime objects are modelled by PyDatetime: a wall-clock value
  in seconds together with an optional UTC offset (none models a naive
  datetime).  datetime.fromisoformat is modelled for the timestamp shapes
  produced by the agent (date, separator, time, optional numeric offset);
  datetime.utcnow() is modelled by a naive PyDatetime whose wall clock is
  an explicit "current time" parameter threaded through the functions, so
  that dependence on the ambient clock is visible in the types.
* Python exceptions that the source code does not catch are modelled with
  Except Unit; a .error () result corresponds to an uncaught exception at
  that level of the code.
* File contents are modelled as List Char; reading a file is modelled by
  passing its contents.
-/

/-- Decoded JSON value, the result of Python json.loads on one log line. -/
inductive Json where
  | null
  | bool (b : Bool)
  | num (n : Int)
  | str (s : List Char)
  | arr (xs : List Json)
  | obj (fields : List (List Char × Json))

/-- Shorthand for a JSON string made from a Lean string literal. -/
def jstr (s : String) : Json := Json.str s.data

/-- Lookup in a decoded JSON object.  Python dicts built by json.loads keep
the last occurrence of a duplicated key, hence the left fold. -/
def pyLookup (fields : List (List Char × Json)) (k : List Char) : Option Json :=
  fields.foldl (fun acc p => if p.1 = k then some p.2 else acc) none

/-- Models the Python expression j.get(k, d): returns the value stored under
k, the default d when the key is absent, and raises (AttributeError) when the
receiver is not a dict. -/
def pyGet (j : Json) (k : List Char) (d : Json) : Except Unit Json :=
  match j with
  | .obj fields => .ok ((pyLookup fields k).getD d)
  | _ => .error ()

/-- Models Python truthiness of a decoded JSON value, as used by the checks
"if entry:" and "if interaction.model:". -/
def pyTruthy : Json → Bool
  | .null => false
  | .bool b => b
  | .num n => n != 0
  | .str s => !s.isEmpty
  | .arr xs => !xs.isEmpty
  | .obj fields => !fields.isEmpty

/-- Models the Python + operator for the operand shapes reachable from
usage.get(..., 0): numbers add (booleans coerce to 0 or 1), strings and
lists concatenate, every other combination raises TypeError. -/
def pyAddJson : Json → Json → Except Unit Json
  | .num a, .num b => .ok (.num (a + b))
  | .num a, .bool b => .ok (.num (a + (if b then 1 else 0)))
  | .bool a, .num b => .ok (.num ((if a then 1 else 0) + b))
  | .bool a, .bool b => .ok (.num ((if a then 1 else 0) + (if b then 1 else 0)))
  | .str a, .str b => .ok (.str (a ++ b))
  | .arr a, .arr b => .ok (.arr (a ++ b))
  | _, _ => .error ()

/-- Hash key of a hashable Python value; lists and dicts are unhashable and
raise TypeError when inserted into a set.  True and 1 share a key, as in
Python. -/
inductive PyHashKey where
  | pnone
  | pint (n : Int)
  | pstr (s : List Char)
deriving DecidableEq

/-- Models hash(x) on a decoded JSON value. -/
def pyHashKey : Json → Except Unit PyHashKey
  | .null => .ok .pnone
  | .bool b => .ok (.pint (if b then 1 else 0))
  | .num n => .ok (.pint n)
  | .str s => .ok (.pstr s)
  | _ => .error ()

/-- Membership test used by the set model; elements already in the set are
hashable by construction. -/
def pySetMem (s : List Json) (k : PyHashKey) : Bool :=
  s.any (fun e => match pyHashKey e with | .ok k2 => k2 = k | .error _ => false)

/-- Models set.add: inserts x unless an equal element is present; raises on
unhashable x. -/
def pySetAdd (s : List Json) (x : Json) : Except Unit (List Json) := do
  let k ← pyHashKey x
  if pySetMem s k then pure s else pure (s ++ [x])

/-- Whitespace recognised by str.strip and by the JSON parser. -/
def isWsChar (c : Char) : Bool := c = ' ' || c = '\t' || c = '\n' || c = '\r'

/-- Drops trailing whitespace. -/
def dropTrailingWs (s : List Char) : List Char := (s.reverse.dropWhile isWsChar).reverse

/-- Models Python str.strip(). -/
def pyStrip (s : List Char) : List Char := dropTrailingWs (s.dropWhile isWsChar)

/-- Models Python str.split with separator a single newline, as in
new_content.strip().split chr(10). -/
def splitNl : List Char → List (List Char)
  | [] => [[]]
  | c :: t =>
    if c = '\n' then [] :: splitNl t
    else
      match splitNl t with
      | g :: gs => (c :: g) :: gs
      | [] => [[c]]

/-- Reattaches the newline terminators dropped by splitNl: the groups other
than the last regain their newline, and an empty final group (a file ending
in a newline) yields no extra line.  Composed with splitNl this models
Python text-mode line iteration, "for line in f". -/
def attachNl : List (List Char) → List (List Char)
  | [] => []
  | [last] => if last = [] then [] else [last]
  | g :: gs => (g ++ ['\n']) :: attachNl gs

/-- Models iterating the lines of an open text file, newline terminators
included. -/
def splitLinesKeepEnds (s : List Char) : List (List Char) := attachNl (splitNl s)

/-- Skips leading whitespace, as the JSON parser does between tokens. -/
def skipWs (s : List Char) : List Char := s.dropWhile isWsChar

/-- Decimal digit value of a character, or none. -/
def dg (c : Char) : Option Nat := if c.isDigit then some (c.toNat - 48) else none

/-- Parses the body of a JSON string after the opening quote, handling the
simple escapes; returns the decoded characters and the remaining input. -/
def parseStrBody : List Char → Option (List Char × List Char)
  | [] => none
  | c :: r =>
    if c = '"' then some ([], r)
    else if c = '\\' then
      match r with
      | [] => none
      | e :: r2 =>
        let dec : Option Char :=
          if e = '"' then some '"'
          else if e = '\\' then some '\\'
          else if e = '/' then some '/'
          else if e = 'n' then some '\n'
          else if e = 't' then some '\t'
          else if e = 'r' then some '\r'
          else none
        match dec with
        | some d => (parseStrBody r2).map (fun p => (d :: p.1, p.2))
        | none => none
    else (parseStrBody r).map (fun p => (c :: p.1, p.2))

/-- Digits of a decimal literal folded into a Nat. -/
def digitsToNat (ds : List Char) : Nat := ds.foldl (fun a c => a * 10 + (c.toNat - 48)) 0

/-- Parses a nonempty run of decimal digits. -/
def parseNatTok (s : List Char) : Option (Nat × List Char) :=
  let ds := s.takeWhile Char.isDigit
  if ds.isEmpty then none else some (digitsToNat ds, s.dropWhile Char.isDigit)

/-- Parses a JSON integer literal, with optional leading minus sign. -/
def parseNumTok : List Char → Option (Json × List Char)
  | '-' :: r => (parseNatTok r).map (fun p => (Json.num (-(p.1 : Int)), p.2))
  | s => (parseNatTok s).map (fun p => (Json.num (p.1 : Int), p.2))

mutual

/-- Parses one JSON value; the fuel bounds recursion depth. -/
def parseVal : Nat → List Char → Option (Json × List Char)
  | 0, _ => none
  | Nat.succ fuel, s =>
    match skipWs s with
    | 'n' :: 'u' :: 'l' :: 'l' :: r => some (Json.null, r)
    | 't' :: 'r' :: 'u' :: 'e' :: r => some (Json.bool true, r)
    | 'f' :: 'a' :: 'l' :: 's' :: 'e' :: r => some (Json.bool false, r)
    | '"' :: r => (parseStrBody r).map (fun p => (Json.str p.1, p.2))
    | '[' :: r =>
      (match skipWs r with
       | ']' :: r2 => some (Json.arr [], r2)
       | _ => (parseItems fuel r).map (fun p => (Json.arr p.1, p.2)))
    | '\x7b' :: r =>
      (match skipWs r with
       | '\x7d' :: r2 => some (Json.obj [], r2)
       | _ => (parseFields fuel r).map (fun p => (Json.obj p.1, p.2)))
    | rest => parseNumTok rest

/-- Parses the comma-separated items of a nonempty JSON array. -/
def parseItems : Nat → List Char → Option (List Json × List Char)
  | 0, _ => none
  | Nat.succ fuel, s => do
    let (v, r) ← parseVal fuel s
    match skipWs r with
    | ',' :: r2 => (parseItems fuel r2).map (fun p => (v :: p.1, p.2))
    | ']' :: r2 => some ([v], r2)
    | _ => none

/-- Parses the key-value pairs of a nonempty JSON object. -/
def parseFields : Nat → List Char → Option (List (List Char × Json) × List Char)
  | 0, _ => none
  | Nat.succ fuel, s =>
    match skipWs s with
    | '"' :: r => do
      let (k, r1) ← parseStrBody r
      match skipWs r1 with
      | ':' :: r2 => do
        let (v, r3) ← parseVal fuel r2
        match skipWs r3 with
        | ',' :: r4 => (parseFields fuel r4).map (fun p => ((k, v) :: p.1, p.2))
        | '\x7d' :: r4 => some ([(k, v)], r4)
        | _ => none
      | _ => none
    | _ => none

end

/-- Models Python json.loads on the JSON subset used by the logs: the whole
input, up to surrounding whitespace, must be one value. -/
def json_loads (s : List Char) : Option Json :=
  match parseVal (2 * s.length + 4) s with
  | some (v, r) => if (skipWs r).isEmpty then some v else none
  | none => none

/-- Models a Python datetime: a wall-clock value in whole seconds together
with an optional UTC offset in seconds.  tz = none models a naive datetime.
Two aware datetimes compare by instant (wall minus offset), two naive ones
by wall clock, and comparing a naive with an aware one raises TypeError. -/
structure PyDatetime where
  wall : Int
  tz : Option Int
deriving DecidableEq

/-- Models d.replace applied with tzinfo set to UTC when d is naive, the
normalization used before since-comparisons in reader.py. -/
def toAwareUTC (d : PyDatetime) : PyDatetime :=
  match d.tz with
  | none => { wall := d.wall, tz := some 0 }
  | some _ => d

/-- UTC instant of a datetime, reading a naive one as if at UTC. -/
def utcInstant (d : PyDatetime) : Int := d.wall - d.tz.getD 0

/-- Models the Python < comparison on datetimes: aware pairs compare by
instant, naive pairs by wall clock, mixed pairs raise TypeError. -/
def pyDtLt (a b : PyDatetime) : Except Unit Bool :=
  match a.tz, b.tz with
  | none, none => .ok (decide (a.wall < b.wall))
  | some x, some y => .ok (decide (a.wall - x < b.wall - y))
  | _, _ => .error ()

/-- Models the Python <= comparison on datetimes. -/
def pyDtLe (a b : PyDatetime) : Except Unit Bool :=
  match a.tz, b.tz with
  | none, none => .ok (decide (a.wall ≤ b.wall))
  | some x, some y => .ok (decide (a.wall - x ≤ b.wall - y))
  | _, _ => .error ()

/-- Days between a proleptic Gregorian civil date and 1970-01-01, the
standard days-from-civil computation; all divisions act on nonnegative
values. -/
def daysFromCivil (y m d : Int) : Int :=
  let yy := if m ≤ 2 then y - 1 else y
  let era := (if 0 ≤ yy then yy else yy - 399) / 400
  let yoe := yy - era * 400
  let mp := (m + 9) % 12
  let doy := (153 * mp + 2) / 5 + d - 1
  let doe := yoe * 365 + yoe / 4 - yoe / 100 + doy
  era * 146097 + doe - 719468

/-- Consumes one expected literal character. -/
def litChar (c : Char) : List Char → Option (List Char)
  | x :: r => if x = c then some r else none
  | [] => none

/-- Consumes one decimal digit. -/
def readDigit : List Char → Option (Nat × List Char)
  | x :: r => (dg x).map (fun v => (v, r))
  | [] => none

/-- Consumes two decimal digits. -/
def read2 (s : List Char) : Option (Nat × List Char) :=
  (readDigit s).bind (fun p1 => (readDigit p1.2).map (fun p2 => (p1.1 * 10 + p2.1, p2.2)))

/-- Consumes four decimal digits. -/
def read4 (s : List Char) : Option (Nat × List Char) :=
  (read2 s).bind (fun p1 => (read2 p1.2).map (fun p2 => (p1.1 * 100 + p2.1, p2.2)))

/-- Consumes the date-time separator accepted by fromisoformat. -/
def readSep : List Char → Option (List Char)
  | x :: r => if x = 'T' || x = ' ' then some r else none
  | [] => none

/-- Parses the optional trailing UTC offset of an ISO timestamp: empty input
means a naive datetime, a signed HH:MM offset yields its value in seconds,
anything else fails. -/
def parseOffsetTail : List Char → Option (Option Int)
  | [] => some none
  | sgn :: r => do
    let p1 ← read2 r
    let r2 ← litChar ':' p1.2
    let p2 ← read2 r2
    if !p2.2.isEmpty then none
    else
      let total : Int := ((p1.1 * 60 + p2.1 : Nat) : Int)
      if sgn = '+' then some (some (total * 60))
      else if sgn = '-' then some (some (-(total * 60)))
      else none

/-- Validates the parsed components and assembles the datetime, as the
range checks inside fromisoformat do. -/
def mkDt (y mo da h mi sec : Nat) (off : Option Int) : Option PyDatetime :=
  if 1 ≤ mo && mo ≤ 12 && 1 ≤ da && da ≤ 31 && h ≤ 23 && mi ≤ 59 && sec ≤ 59 then
    some { wall := daysFromCivil y mo da * 86400 + ((h * 3600 + mi * 60 + sec : Nat) : Int)
           tz := off }
  else none

/-- Models datetime.fromisoformat for the timestamp shapes written by the
agent: a full date, a T or space separator, a time, and an optional numeric
offset; anything else raises ValueError (modelled as none). -/
def fromisoformat (s : List Char) : Option PyDatetime :=
  (read4 s).bind (fun py =>
    (litChar '-' py.2).bind (fun r1 =>
      (read2 r1).bind (fun pmo =>
        (litChar '-' pmo.2).bind (fun r2 =>
          (read2 r2).bind (fun pda =>
            (readSep pda.2).bind (fun r3 =>
              (read2 r3).bind (fun ph =>
                (litChar ':' ph.2).bind (fun r4 =>
                  (read2 r4).bind (fun pmi =>
                    (litChar ':' pmi.2).bind (fun r5 =>
                      (read2 r5).bind (fun psec =>
                        (parseOffsetTail psec.2).bind (fun off =>
                          mkDt py.1 pmo.1 pda.1 ph.1 pmi.1 psec.1 off))))))))))))

/-- Models timestamp_str.replace applied to the literal Z, expanding each Z
to an explicit +00:00 offset (watcher.py line 143). -/
def replaceZ (s : List Char) : List Char :=
  s.flatMap (fun c => if c = 'Z' then "+00:00".data else [c])

/-- Parsed interaction from a Claude conversation entry (dataclass
ClaudeInteraction in watcher.py).  Fields that Python stores without type
enforcement keep type Json. -/
structure ClaudeInteraction where
  id : Json
  session_id : Json
  timestamp : PyDatetime
  role : Json
  content : List Char
  model : Json
  tokens_in : Json
  tokens_out : Json
  tool_calls : List (Json × Json × Json)
  thinking : Option Json

/-- Checks entry_type against the tuple of accepted top-level types
(watcher.py line 97). -/
def isUserOrAssistant : Json → Bool
  | .str s => s = "user".data || s = "assistant".data
  | _ => false

mutual

/-- Models Python repr of a decoded JSON value, used by str() on containers. -/
def pyRepr : Json → List Char
  | .null => "None".data
  | .bool true => "True".data
  | .bool false => "False".data
  | .num n => (toString n).data
  | .str s => '\x27' :: (s ++ ['\x27'])
  | .arr xs => '[' :: (pyReprItems xs ++ [']'])
  | .obj fields => '\x7b' :: (pyReprFields fields ++ ['\x7d'])

/-- Comma-separated reprs of array items. -/
def pyReprItems : List Json → List Char
  | [] => []
  | [x] => pyRepr x
  | x :: xs => pyRepr x ++ ", ".data ++ pyReprItems xs

/-- Comma-separated reprs of object fields. -/
def pyReprFields : List (List Char × Json) → List Char
  | [] => []
  | [(k, v)] => '\x27' :: (k ++ '\x27' :: ':' :: ' ' :: pyRepr v)
  | (k, v) :: fs => '\x27' :: (k ++ '\x27' :: ':' :: ' ' :: pyRepr v) ++ ", ".data ++ pyReprFields fs

end

/-- Models Python str() applied to a decoded JSON value, as in the fallback
content = str(content_raw) (watcher.py line 133). -/
def pyStr : Json → List Char
  | .str s => s
  | j => pyRepr j

/-- One step of the content-block loop of extract_interaction (watcher.py
lines 113-129): the accumulator carries the text parts, the collected tool
calls, and the last thinking block seen. -/
def contentStep (acc : List Json × List (Json × Json × Json) × Option Json) (b : Json) :
    List Json × List (Json × Json × Json) × Option Json :=
  let (tps, tcs, th) := acc
  match b with
  | .obj fs =>
    (match (pyLookup fs "type".data).getD .null with
     | .str t =>
       if t = "text".data then (tps ++ [(pyLookup fs "text".data).getD (.str [])], tcs, th)
       else if t = "tool_use".data then
         (tps,
          tcs ++ [((pyLookup fs "id".data).getD .null,
                   (pyLookup fs "name".data).getD .null,
                   (pyLookup fs "input".data).getD .null)],
          th)
       else if t = "thinking".data then (tps, tcs, some ((pyLookup fs "thinking".data).getD (.str [])))
       else (tps, tcs, th)
     | _ => (tps, tcs, th))
  | .str s => (tps ++ [Json.str s], tcs, th)
  | _ => (tps, tcs, th)

/-- The content-block loop over a list content value. -/
def contentLoop (blocks : List Json) : List Json × List (Json × Json × Json) × Option Json :=
  blocks.foldl contentStep ([], [], none)

/-- Models the newline join of the collected text parts; every part must be
a string or the join raises TypeError. -/
def pyJoinNl : List Json → Except Unit (List Char)
  | [] => .ok []
  | [Json.str s] => .ok s
  | Json.str s :: rest => do
    let r ← pyJoinNl rest
    .ok (s ++ '\n' :: r)
  | _ => .error ()

/-- Models the timestamp block of extract_interaction (watcher.py lines
141-145): the Z-expanded ISO string is parsed, and on AttributeError (no
string) or ValueError (unparseable) the current naive UTC time is
substituted. -/
def parseTimestamp (tsJ : Json) (now : Int) : PyDatetime :=
  match tsJ with
  | .str s =>
    (match fromisoformat (replaceZ s) with
     | some d => d
     | none => { wall := now, tz := none })
  | _ => { wall := now, tz := none }

/-- Models extract_interaction (watcher.py lines 87-158).  The now argument
models the ambient clock read by datetime.utcnow(); an .error () result is
an exception escaping the function. -/
def extract_interaction (entry : Json) (now : Int) : Except Unit (Option ClaudeInteraction) := do
  let entry_type ← pyGet entry "type".data .null
  if isUserOrAssistant entry_type = false then pure none
  else do
    let message ← pyGet entry "message".data (.obj [])
    let role ← pyGet message "role".data entry_type
    let content_raw ← pyGet message "content".data (.str [])
    let parts ←
      (match content_raw with
       | .str s => Except.ok (s, ([] : List (Json × Json × Json)), (none : Option Json))
       | .arr blocks => do
         let (tps, tcs, th) := contentLoop blocks
         let c ← pyJoinNl tps
         Except.ok (c, tcs, th)
       | other => Except.ok (pyStr other, [], none))
    let usage ← pyGet message "usage".data (.obj [])
    let tin1 ← pyGet usage "input_tokens".data (.num 0)
    let tin2 ← pyGet usage "cache_read_input_tokens".data (.num 0)
    let tokens_in ← pyAddJson tin1 tin2
    let tokens_out ← pyGet usage "output_tokens".data (.num 0)
    let tsJ ← pyGet entry "timestamp".data (.str [])
    let idJ ← pyGet entry "uuid".data (.str [])
    let sidJ ← pyGet entry "sessionId".data (.str [])
    let modelJ ← pyGet message "model".data .null
    pure (some
      { id := idJ
        session_id := sidJ
        timestamp := parseTimestamp tsJ now
        role := role
        content := parts.1
        model := modelJ
        tokens_in := tokens_in
        tokens_out := tokens_out
        tool_calls := parts.2.1
        thinking := parts.2.2 })

/-- Models parse_jsonl_line (watcher.py lines 72-84): json.loads of the
stripped line, none on JSONDecodeError. -/
def parse_jsonl_line (line : List Char) : Option Json := json_loads (pyStrip line)

/-- Models the line loop of parse_conversation_file (watcher.py lines
170-185): blank lines are skipped, unparseable or falsy entries are skipped,
and an exception escaping extract_interaction aborts the rest of the loop,
keeping the interactions collected so far (the surrounding try swallows it
at whole-file granularity). -/
def parse_lines : List (List Char) → Int → List ClaudeInteraction
  | [], _ => []
  | line :: rest, now =>
    if (pyStrip line).isEmpty then parse_lines rest now
    else
      match parse_jsonl_line line with
      | none => parse_lines rest now
      | some entry =>
        if pyTruthy entry then
          match extract_interaction entry now with
          | .error _ => []
          | .ok none => parse_lines rest now
          | .ok (some i) => i :: parse_lines rest now
        else parse_lines rest now

/-- Models parse_conversation_file (watcher.py lines 161-185) on the
contents of the file. -/
def parse_conversation_file (file : List Char) (now : Int) : List ClaudeInteraction :=
  parse_lines (splitLinesKeepEnds file) now

/-- Models the line loop of ClaudeConversationHandler._process_file
(watcher.py lines 285-296): the same per-line treatment as
parse_conversation_file, but also reporting whether an exception aborted the
loop (in which case the stored offset is not advanced). -/
def process_lines_w : List (List Char) → Int → List ClaudeInteraction × Bool
  | [], _ => ([], false)
  | line :: rest, now =>
    if (pyStrip line).isEmpty then process_lines_w rest now
    else
      match parse_jsonl_line line with
      | none => process_lines_w rest now
      | some entry =>
        if pyTruthy entry then
          match extract_interaction entry now with
          | .error _ => ([], true)
          | .ok none => process_lines_w rest now
          | .ok (some i) =>
            let p := process_lines_w rest now
            (i :: p.1, p.2)
        else process_lines_w rest now

/-- Models one pass over the newly read content in _process_file: the
content is stripped, split on newlines and processed line by line; empty
content is skipped by the "if new_content:" guard. -/
def process_content (content : List Char) (now : Int) : List ClaudeInteraction × Bool :=
  if content.isEmpty then ([], false)
  else process_lines_w (splitNl (pyStrip content)) now

/-- Models one firing of _process_file (watcher.py lines 274-301) against a
snapshot of the file: seek to the stored offset, read to end of file, emit
the extracted interactions, and record the new offset unless an exception
occurred.  Seeking beyond the end of a shrunken file reads nothing and
leaves the position at the stored offset, hence max. -/
def replay_step (snapshot : List Char) (pos : Nat) (now : Int) : List ClaudeInteraction × Nat :=
  let content := snapshot.drop pos
  let newPos := max pos snapshot.length
  let p := process_content content now
  (p.1, if p.2 then pos else newPos)

/-- Replays a sequence of file snapshots through the incremental reader,
starting from a stored offset, concatenating the emitted interactions and
returning the final stored offset. -/
def replay : List (List Char) → Nat → Int → List ClaudeInteraction × Nat
  | [], pos, _ => ([], pos)
  | snap :: rest, pos, now =>
    let p1 := replay_step snap pos now
    let p2 := replay rest p1.2 now
    (p1.1 ++ p2.1, p2.2)

/-- Aggregated metrics for a Claude session (dataclass SessionMetrics in
reader.py).  The interactions counter only ever receives += 1 and stays a
Nat; the token accumulators start at the int 0 and receive Python +, so they
keep type Json; cost_usd models the Python float, which the reader
initializes to 0.0 and never changes, so the value 0 represents it
exactly. -/
structure SessionMetrics where
  interactions : Nat := 0
  tokens_in : Json := .num 0
  tokens_out : Json := .num 0
  cost_usd : Int := 0
  first_timestamp : Option PyDatetime := none
  last_timestamp : Option PyDatetime := none
  models_used : List Json := []

/-- Checks interaction.role == "assistant" (reader.py line 181). -/
def isAssistantRole : Json → Bool
  | .str s => s = "assistant".data
  | _ => false

/-- Models the since filter of calculate_metrics (reader.py lines 170-179):
both sides are normalized to UTC before the <= comparison decides whether
the interaction is skipped. -/
def sinceSkip (since : Option PyDatetime) (i : ClaudeInteraction) : Except Unit Bool :=
  match since with
  | none => Except.ok false
  | some s => pyDtLe (toAwareUTC i.timestamp) (toAwareUTC s)

/-- Models the assistant-only counter block of calculate_metrics (reader.py
lines 181-186): count, token accumulators with Python +, and the models
set. -/
def assistantUpdate (m : SessionMetrics) (i : ClaudeInteraction) : Except Unit SessionMetrics :=
  if isAssistantRole i.role then do
    let tin ← pyAddJson m.tokens_in i.tokens_in
    let tout ← pyAddJson m.tokens_out i.tokens_out
    let mu ← if pyTruthy i.model then pySetAdd m.models_used i.model else pure m.models_used
    pure { m with
      interactions := m.interactions + 1
      tokens_in := tin
      tokens_out := tout
      models_used := mu }
  else pure m

/-- Models the first-timestamp update (reader.py lines 188-192), short
circuiting the comparison when no first timestamp is set yet. -/
def firstUpdate (o : Option PyDatetime) (t : PyDatetime) : Except Unit (Option PyDatetime) :=
  match o with
  | none => Except.ok (some t)
  | some f => do
    let lt ← pyDtLt t f
    Except.ok (if lt then some t else some f)

/-- Models the last-timestamp update (reader.py lines 193-194). -/
def lastUpdate (o : Option PyDatetime) (t : PyDatetime) : Except Unit (Option PyDatetime) :=
  match o with
  | none => Except.ok (some t)
  | some l => do
    let gt ← pyDtLt l t
    Except.ok (if gt then some t else some l)

/-- Models one iteration of the aggregation loop of calculate_metrics
(reader.py lines 169-194): the since filter, then the assistant-only
counters, then the first/last update over both roles.  An .error () is an
exception escaping calculate_metrics. -/
def foldOne (since : Option PyDatetime) (m : SessionMetrics) (i : ClaudeInteraction) :
    Except Unit SessionMetrics := do
  let skip ← sinceSkip since i
  if skip then pure m
  else do
    let m1 ← assistantUpdate m i
    let firstTs ← firstUpdate m1.first_timestamp i.timestamp
    let lastTs ← lastUpdate m1.last_timestamp i.timestamp
    pure { m1 with first_timestamp := firstTs, last_timestamp := lastTs }

/-- The aggregation loop over a list of interactions. -/
def metricsLoop (since : Option PyDatetime) (m : SessionMetrics) (l : List ClaudeInteraction) :
    Except Unit SessionMetrics :=
  l.foldlM (foldOne since) m

/-- Models ClaudeReader.calculate_metrics (reader.py lines 141-196) on the
contents of the conversation files. -/
def calculate_metrics (files : List (List Char)) (since : Option PyDatetime) (now : Int) :
    Except Unit SessionMetrics :=
  files.foldlM (fun m f => metricsLoop since m (parse_conversation_file f now)) {}

/-- All interactions parsed from the given files, in file order. -/
def parsedOf (files : List (List Char)) (now : Int) : List ClaudeInteraction :=
  (files.map (fun f => parse_conversation_file f now)).flatten

/-- The since filter of read_all_interactions (reader.py line 128): keep an
interaction when its UTC-normalized timestamp is strictly after since. -/
def keepAfterB (s : PyDatetime) (i : ClaudeInteraction) : Bool :=
  decide (utcInstant (toAwareUTC s) < utcInstant (toAwareUTC i.timestamp))

/-- Sort key comparison for the newest-first ordering: descending by
timestamp.  On an awareness-homogeneous list -- the only kind
read_all_interactions ever sorts, see the guard there -- Python's raw
datetime comparison agrees with utcInstant: aware datetimes compare by
instant and naive ones by wall clock. -/
def newestFirst (a b : ClaudeInteraction) : Bool :=
  decide (utcInstant b.timestamp ≤ utcInstant a.timestamp)

/-- Models ClaudeReader.read_all_interactions (reader.py lines 103-139): per
file, parse and filter by since, then merge and sort newest first (line
134).  The sort compares the raw datetimes, and comparing a naive with an
aware datetime raises TypeError; list.sort compares every element with some
other element, so the sort raises exactly when the merged list holds both a
naive and an aware timestamp (naive ones enter through the utcnow fallback
of extract_interaction).  Otherwise the limit is applied to the sorted list
(a limit of 0 is falsy in Python and disables slicing). -/
def read_all_interactions (files : List (List Char)) (since : Option PyDatetime)
    (lim : Option Nat) (now : Int) : Except Unit (List ClaudeInteraction) :=
  let allInter := (files.map (fun f =>
    let interactions := parse_conversation_file f now
    match since with
    | some s => interactions.filter (keepAfterB s)
    | none => interactions)).flatten
  if allInter.any (fun i => i.timestamp.tz.isSome) &&
      allInter.any (fun i => i.timestamp.tz.isNone) then .error ()
  else
    let sorted := allInter.mergeSort newestFirst
    match lim with
    | some n => if n = 0 then .ok sorted else .ok (sorted.take n)
    | none => .ok sorted

/-- Status of a worktree session (tracker.py SessionStatus). -/
inductive SessionStatus where
  | ready
  | active
  | paused
  | stopped
deriving DecidableEq

/-- Models SessionTracker._update_status (tracker.py lines 298-315) as a
function of the persisted status and the two oracle readings: whether the
agent process is running and whether there was recent activity (consulted
only when the process runs, as in the source nesting). -/
def update_status (st : SessionStatus) (running recent : Bool) : SessionStatus :=
  if st = .stopped then st
  else if running then
    if recent then .active
    else if st = .active then .paused else st
  else if st = .active then .paused else st

/-- Models ClaudeReader.is_claude_running (reader.py lines 210-225) as a
function of the outcome of the pgrep subprocess call: exit status 0 means
running, and any exception from the call is caught and reported as not
running. -/
def is_claude_running (pgrepResult : Except Unit Int) : Bool :=
  match pgrepResult with
  | .ok rc => rc == 0
  | .error _ => false

/-! Specification-side definitions used to state the properties, and the
concrete inputs used by witnesses and counterexamples. -/

set_option maxRecDepth 100000

/-- Integer value of a numeric-or-boolean JSON value (0 otherwise); used to
state token sums. -/
def jint : Json → Int
  | .num n => n
  | .bool b => if b then 1 else 0
  | _ => 0

/-- Whether a JSON value is a plain number. -/
def tokNumB : Json → Bool
  | .num _ => true
  | _ => false

/-- Every interaction of the list carries an aware (offset-bearing)
timestamp. -/
def allAwareB (l : List ClaudeInteraction) : Bool :=
  l.all (fun i => i.timestamp.tz.isSome)

/-- Every interaction of the list carries numeric token fields. -/
def allTokNumB (l : List ClaudeInteraction) : Bool :=
  l.all (fun i => tokNumB i.tokens_in && tokNumB i.tokens_out)

/-- An interaction whose model value is either falsy or hashable, so that
inserting it into the models set cannot raise. -/
def modelOkB (i : ClaudeInteraction) : Bool :=
  !(pyTruthy i.model) || (match pyHashKey i.model with | .ok _ => true | .error _ => false)

/-- Every interaction of the list satisfies modelOkB. -/
def allModelsOkB (l : List ClaudeInteraction) : Bool := l.all modelOkB

/-- Pure form of the models-set update performed for a truthy, hashable
model value. -/
def modelsUpd (s : List Json) (x : Json) : List Json :=
  if pyTruthy x then
    match pyHashKey x with
    | .ok k => if pySetMem s k then s else s ++ [x]
    | .error _ => s
  else s

/-- Whether an optional timestamp is absent or aware. -/
def awareOpt : Option PyDatetime → Bool
  | none => true
  | some d => d.tz.isSome


/-- Number of assistant-role interactions. -/
def assistantCount (l : List ClaudeInteraction) : Nat :=
  (l.filter (fun i => isAssistantRole i.role)).length

/-- Sum of tokens_in over the assistant-role interactions. -/
def tokensInSum (l : List ClaudeInteraction) : Int :=
  ((l.filter (fun i => isAssistantRole i.role)).map (fun i => jint i.tokens_in)).sum

/-- Sum of tokens_out over the assistant-role interactions. -/
def tokensOutSum (l : List ClaudeInteraction) : Int :=
  ((l.filter (fun i => isAssistantRole i.role)).map (fun i => jint i.tokens_out)).sum

/-- UTC instants of the timestamps of a list of interactions, over both
roles. -/
def instantsOf (l : List ClaudeInteraction) : List Int :=
  l.map (fun i => utcInstant i.timestamp)

/-- One step of a running minimum over optional integers. -/
def minStep (a : Option Int) (x : Int) : Option Int :=
  match a with
  | none => some x
  | some v => some (min v x)

/-- One step of a running maximum over optional integers. -/
def maxStep (a : Option Int) (x : Int) : Option Int :=
  match a with
  | none => some x
  | some v => some (max v x)

/-- Minimum of a list of integers, none when empty. -/
def listMin? (l : List Int) : Option Int := l.foldl minStep none

/-- Maximum of a list of integers, none when empty. -/
def listMax? (l : List Int) : Option Int := l.foldl maxStep none

/-- The first/last update of the metrics fold, written as a pure function:
the new first timestamp given the current one. -/
def updFirst (o : Option PyDatetime) (t : PyDatetime) : PyDatetime :=
  match o with
  | none => t
  | some f => if utcInstant t < utcInstant f then t else f

/-- The new last timestamp given the current one. -/
def updLast (o : Option PyDatetime) (t : PyDatetime) : PyDatetime :=
  match o with
  | none => t
  | some l => if utcInstant l < utcInstant t then t else l
/-- The running first-timestamp over a list, as the loop computes it. -/
def foldFirst (o : Option PyDatetime) (l : List ClaudeInteraction) : Option PyDatetime :=
  l.foldl (fun o2 i => some (updFirst o2 i.timestamp)) o

/-- The running last-timestamp over a list. -/
def foldLast (o : Option PyDatetime) (l : List ClaudeInteraction) : Option PyDatetime :=
  l.foldl (fun o2 i => some (updLast o2 i.timestamp)) o


/-- Top-level type field of a record (null when absent or when the record is
not an object). -/
def typeField (e : Json) : Json :=
  match e with
  | .obj fs => (pyLookup fs "type".data).getD .null
  | _ => .null

/-- The message object of a record, with the empty-dict default of
entry.get. -/
def messageField (e : Json) : Json :=
  match e with
  | .obj fs => (pyLookup fs "message".data).getD (.obj [])
  | _ => .null

/-- Whether the message object carries an explicit role field. -/
def messageHasRoleB (e : Json) : Bool :=
  match messageField e with
  | .obj ms => (pyLookup ms "role".data).isSome
  | _ => false

/-- The role a stored Interaction receives according to the source: the
message's role field when present, otherwise the top-level type. -/
def specRole (e : Json) : Json :=
  match messageField e with
  | .obj ms => (pyLookup ms "role".data).getD (typeField e)
  | _ => .null

/-- The raw timestamp field handed to the timestamp block (empty-string
default of entry.get). -/
def tsField (e : Json) : Json :=
  match e with
  | .obj fs => (pyLookup fs "timestamp".data).getD (.str [])
  | _ => .str []

/-- Whether the record's timestamp field is a string that fromisoformat
accepts after Z-expansion, so that the utcnow fallback is not taken. -/
def tsParsesB (e : Json) : Bool :=
  match tsField e with
  | .str s => (fromisoformat (replaceZ s)).isSome
  | _ => false

/-- Replaces the timestamp of the interaction inside an extraction result,
leaving every other field and the error/none shapes unchanged. -/
def withTs (r : Except Unit (Option ClaudeInteraction)) (t : PyDatetime) :
    Except Unit (Option ClaudeInteraction) :=
  r.map (Option.map (fun i => { i with timestamp := t }))

/-- Two extraction results that agree except possibly on the timestamp
field. -/
def eqUpToTimestamp :
    Except Unit (Option ClaudeInteraction) → Except Unit (Option ClaudeInteraction) → Prop
  | .error _, .error _ => True
  | .ok none, .ok none => True
  | .ok (some a), .ok (some b) =>
    a.id = b.id ∧ a.session_id = b.session_id ∧ a.role = b.role ∧ a.content = b.content ∧
    a.model = b.model ∧ a.tokens_in = b.tokens_in ∧ a.tokens_out = b.tokens_out ∧
    a.tool_calls = b.tool_calls ∧ a.thinking = b.thinking
  | _, _ => False

/-- Bytes of one appended chunk made of complete newline-terminated record
lines. -/
def chunkBytes (lines : List (List Char)) : List Char :=
  (lines.map (fun l => l ++ ['\n'])).flatten

/-- The successive snapshots the watcher sees while the chunks are appended:
after each append the file holds everything appended so far. -/
def snapshotsAcc (acc : List Char) : List (List (List Char)) → List (List Char)
  | [] => []
  | c :: rest => (acc ++ chunkBytes c) :: snapshotsAcc (acc ++ chunkBytes c) rest

/-- The final contents of the file once every chunk is appended. -/
def fileOfChunks (chunks : List (List (List Char))) : List Char :=
  (chunks.map chunkBytes).flatten

/-- Valid user record of the worked example, at T0. -/
def scenUserLine : List Char :=
  "\x7b\"type\":\"user\",\"message\":\x7b\"role\":\"user\",\"content\":\"hello\"\x7d,\"timestamp\":\"2024-01-01T10:00:00Z\",\"uuid\":\"u1\",\"sessionId\":\"s1\"\x7d".data

/-- Malformed JSON line of the worked example. -/
def scenBadLine : List Char := "\x7bnot json".data

/-- Valid assistant record of the worked example, at T0 plus 30 seconds,
with usage input_tokens 100 and output_tokens 50. -/
def scenAsstLine : List Char :=
  "\x7b\"type\":\"assistant\",\"message\":\x7b\"role\":\"assistant\",\"content\":\"hi\",\"usage\":\x7b\"input_tokens\":100,\"output_tokens\":50\x7d,\"model\":\"m1\"\x7d,\"timestamp\":\"2024-01-01T10:00:30Z\",\"uuid\":\"u2\",\"sessionId\":\"s1\"\x7d".data

/-- The three-line file of the worked example. -/
def scenFile : List Char := scenUserLine ++ '\n' :: scenBadLine ++ '\n' :: scenAsstLine ++ ['\n']

/-- T0 of the worked example: 2024-01-01 10:00:00 UTC. -/
def t0 : PyDatetime := { wall := 19723 * 86400 + 36000, tz := some 0 }

/-- T0 plus 30 seconds. -/
def t1 : PyDatetime := { wall := 19723 * 86400 + 36030, tz := some 0 }

/-- The metrics the worked example must produce. -/
def scenMetrics : SessionMetrics :=
  { interactions := 1
    tokens_in := .num 100
    tokens_out := .num 50
    cost_usd := 0
    first_timestamp := some t0
    last_timestamp := some t1
    models_used := [jstr "m1"] }

/-- A file holding one complete assistant record. -/
def oneRec : List Char := scenAsstLine ++ ['\n']

/-- A file holding one complete user record; shorter than oneRec. -/
def shortFile : List Char := scenUserLine ++ ['\n']

/-- A file whose first line is valid JSON but not an object, followed by a
well-formed assistant record. -/
def c5File : List Char := "[1]".data ++ '\n' :: scenAsstLine ++ ['\n']

/-- A record whose message carries a role that is neither user nor
assistant. -/
def bananaEntry : Json :=
  Json.obj
    [("type".data, jstr "user"),
     ("message".data, Json.obj [("role".data, jstr "banana"), ("content".data, jstr "x")]),
     ("timestamp".data, jstr "2024-01-01T10:00:00Z")]

/-- A record with no timestamp field, driving extraction into the utcnow
fallback. -/
def noTsEntry : Json :=
  Json.obj [("type".data, jstr "user"), ("message".data, Json.obj [])]

/-- The Interaction extracted from noTsEntry when the clock reads n. -/
def noTsInteraction (n : Int) : ClaudeInteraction :=
  { id := Json.str [], session_id := Json.str [], timestamp := { wall := n, tz := none }
    role := jstr "user", content := [], model := Json.null, tokens_in := Json.num 0
    tokens_out := Json.num 0, tool_calls := [], thinking := none }

/-- The Interaction extracted from bananaEntry. -/
def bananaInteraction : ClaudeInteraction :=
  { id := Json.str [], session_id := Json.str [], timestamp := t0
    role := jstr "banana", content := "x".data, model := Json.null, tokens_in := Json.num 0
    tokens_out := Json.num 0, tool_calls := [], thinking := none }

/-- A record line with no timestamp field: its extraction takes the utcnow
fallback and stores a naive timestamp. -/
def noTsLine : List Char := "\x7b\"type\":\"user\",\"message\":\x7b\x7d\x7d".data

/-- A file holding the aware assistant record of the worked example followed
by a record with no timestamp: the two parsed timestamps mix aware and
naive. -/
def mixFile : List Char := scenAsstLine ++ '\n' :: noTsLine ++ ['\n']

/-- A clock reading strictly after T0, as read by the utcnow fallback while
processing mixFile. -/
def mixNow : Int := 19723 * 86400 + 36100

/-! Basic reduction lemmas for the Except monad used by the embedded code. -/

@[simp] theorem ok_bind {α β : Type} (a : α) (f : α → Except Unit β) :
    (Except.ok a : Except Unit α) >>= f = f a := rfl

@[simp] theorem error_bind {α β : Type} (e : Unit) (f : α → Except Unit β) :
    (Except.error e : Except Unit α) >>= f = Except.error e := rfl

@[simp] theorem pure_eq_ok {α : Type} (a : α) : (pure a : Except Unit α) = Except.ok a := rfl

/-- C6: STOPPED is absorbing: from the stopped status, no sequence of
process-liveness and recent-activity readings fed through the status
recomputation changes the status. -/
theorem c6_stopped_absorbing (inputs : List (Bool × Bool)) :
    inputs.foldl (fun st p => update_status st p.1 p.2) SessionStatus.stopped =
      SessionStatus.stopped := by
  induction inputs with
  | nil => rfl
  | cons p rest ih => simpa [update_status] using ih

/-- C7: when the liveness query fails, is_claude_running reports false, and
the status recomputation demotes a previously ACTIVE session to PAUSED --
never to ACTIVE -- whatever the recent-activity reading. -/
theorem c7_liveness_failure_never_active (recent : Bool) :
    update_status SessionStatus.active (is_claude_running (Except.error ())) recent =
        SessionStatus.paused ∧
    update_status SessionStatus.active (is_claude_running (Except.error ())) recent ≠
        SessionStatus.active := by
  refine ⟨?_, ?_⟩ <;> simp [update_status, is_claude_running]

/-- C4 (counterexample): with the stored offset at the length of the longer
previous contents and the file now shorter, the incremental read does not
reset the offset to 0 and does not re-read from the start: it emits nothing
and keeps the stale offset, although re-reading would have found a record. -/
theorem c4_truncation_counterexample :
    shortFile.length < oneRec.length ∧
    replay_step shortFile oneRec.length 0 = ([], oneRec.length) ∧
    oneRec.length ≠ 0 ∧
    parse_conversation_file shortFile 0 ≠ [] := by
  refine ⟨by decide, rfl, by decide, ?_⟩
  intro h
  exact absurd (congrArg List.length h) (by decide)

/-- C4 (amended): whenever the current file size is smaller than the stored
offset, the incremental read emits nothing and leaves the stored offset
unchanged; there is no reset to 0 and no re-read. -/
theorem c4_truncation_keeps_offset (file : List Char) (pos : Nat) (now : Int)
    (h : file.length < pos) :
    replay_step file pos now = ([], pos) := by
  unfold replay_step process_content
  have hd : file.drop pos = [] := List.drop_eq_nil_of_le (Nat.le_of_lt h)
  have hm : max pos file.length = pos := by omega
  simp [hd, hm]

/-- C4 (witness): the amended statement at the concrete truncated file. -/
theorem c4_truncation_keeps_offset_witness :
    shortFile.length < oneRec.length ∧ replay_step shortFile oneRec.length 0 = ([], oneRec.length) :=
  ⟨by decide, c4_truncation_keeps_offset shortFile oneRec.length 0 (by decide)⟩

/-- C3 (counterexample): replaying the bytes of a valid single-record stream
with a chunk boundary in the middle of the record loses the record: the
incremental result is empty while the full parse yields it. -/
theorem c3_chunking_loses_record :
    (replay [oneRec.take 20, oneRec] 0 0).1 ≠ parse_conversation_file oneRec 0 ∧
    (parse_conversation_file oneRec 0).length = 1 ∧
    (replay [oneRec.take 20, oneRec] 0 0).1 = [] := by
  refine ⟨?_, by decide, rfl⟩
  intro h
  exact absurd (congrArg List.length h) (by decide)

/-- C5 (counterexample): a line that is valid JSON but not an object (here a
one-element array) raises inside extraction, and the surrounding whole-file
try aborts the remainder of the file: the well-formed assistant record after
it is lost, while alone it parses fine. -/
theorem c5_nondict_aborts_file :
    parse_conversation_file c5File 0 = [] ∧
    (parse_conversation_file oneRec 0).length = 1 := by
  refine ⟨?_, by decide⟩
  have h : (parse_conversation_file c5File 0).length = 0 := by decide
  exact List.length_eq_zero.mp h

/-! Lemmas about the metrics fold. -/

theorem assistantUpdate_frame (m : SessionMetrics) (i : ClaudeInteraction)
    (m1 : SessionMetrics) (h : assistantUpdate m i = .ok m1) :
    m1.cost_usd = m.cost_usd ∧ m1.first_timestamp = m.first_timestamp ∧
      m1.last_timestamp = m.last_timestamp := by
  unfold assistantUpdate at h
  split at h
  · cases h1 : pyAddJson m.tokens_in i.tokens_in with
    | error e => rw [h1] at h; simp at h
    | ok tin =>
      rw [h1] at h
      simp only [ok_bind] at h
      cases h2 : pyAddJson m.tokens_out i.tokens_out with
      | error e => rw [h2] at h; simp at h
      | ok tout =>
        rw [h2] at h
        simp only [ok_bind] at h
        split at h
        · cases h3 : pySetAdd m.models_used i.model with
          | error e => rw [h3] at h; simp at h
          | ok mu =>
            rw [h3] at h
            simp only [ok_bind, pure_eq_ok, Except.ok.injEq] at h
            rw [← h]
            exact ⟨rfl, rfl, rfl⟩
        · simp only [pure_eq_ok, ok_bind, Except.ok.injEq] at h
          rw [← h]
          exact ⟨rfl, rfl, rfl⟩
  · simp only [pure_eq_ok, Except.ok.injEq] at h
    rw [← h]
    exact ⟨rfl, rfl, rfl⟩

theorem foldOne_cost (since : Option PyDatetime) (m : SessionMetrics) (i : ClaudeInteraction)
    (m2 : SessionMetrics) (h : foldOne since m i = .ok m2) : m2.cost_usd = m.cost_usd := by
  unfold foldOne at h
  cases hs : sinceSkip since i with
  | error e => rw [hs] at h; simp at h
  | ok skip =>
    rw [hs] at h
    simp only [ok_bind] at h
    by_cases hsk : skip
    · rw [if_pos hsk] at h
      simp only [pure_eq_ok, Except.ok.injEq] at h
      rw [← h]
    · rw [if_neg hsk] at h
      cases ha : assistantUpdate m i with
      | error e => rw [ha] at h; simp at h
      | ok m1 =>
        rw [ha] at h
        simp only [ok_bind] at h
        cases hf : firstUpdate m1.first_timestamp i.timestamp with
        | error e => rw [hf] at h; simp at h
        | ok fts =>
          rw [hf] at h
          simp only [ok_bind] at h
          cases hl : lastUpdate m1.last_timestamp i.timestamp with
          | error e => rw [hl] at h; simp at h
          | ok lts =>
            rw [hl] at h
            simp only [ok_bind, pure_eq_ok, Except.ok.injEq] at h
            rw [← h]
            exact (assistantUpdate_frame m i m1 ha).1

theorem metricsLoop_cost (since : Option PyDatetime) (l : List ClaudeInteraction) :
    ∀ m m2, metricsLoop since m l = .ok m2 → m2.cost_usd = m.cost_usd := by
  induction l with
  | nil =>
    intro m m2 h
    unfold metricsLoop at h
    have h2 : m = m2 := Except.ok.inj h
    rw [← h2]
  | cons i rest ih =>
    intro m m2 h
    unfold metricsLoop at h
    rw [List.foldlM_cons] at h
    cases hf : foldOne since m i with
    | error e => rw [hf] at h; simp at h
    | ok m1 =>
      rw [hf] at h
      simp only [ok_bind] at h
      exact (ih m1 m2 h).trans (foldOne_cost since m i m1 hf)

theorem calc_foldlM_cost (since : Option PyDatetime) (now : Int) (files : List (List Char)) :
    ∀ acc m2,
      files.foldlM (fun mm f => metricsLoop since mm (parse_conversation_file f now)) acc =
        .ok m2 → m2.cost_usd = acc.cost_usd := by
  induction files with
  | nil =>
    intro acc m2 h
    have h2 : acc = m2 := Except.ok.inj h
    rw [← h2]
  | cons f fs ih =>
    intro acc m2 h
    rw [List.foldlM_cons] at h
    cases hf : metricsLoop since acc (parse_conversation_file f now) with
    | error e => rw [hf] at h; simp at h
    | ok m1 =>
      rw [hf] at h
      simp only [ok_bind] at h
      exact (ih m1 m2 h).trans (metricsLoop_cost since _ acc m1 hf)

/-- C10: whenever calculate_metrics returns, the cost_usd field of the
result is 0.0: the aggregation fold never touches the cost field, for every
set of conversation files and every since filter. -/
theorem c10_cost_zero (files : List (List Char)) (since : Option PyDatetime) (now : Int)
    (m : SessionMetrics) (h : calculate_metrics files since now = .ok m) :
    m.cost_usd = 0 := by
  unfold calculate_metrics at h
  exact calc_foldlM_cost since now files {} m h

/-- C10 (witness): the worked example evaluates to metrics with zero cost. -/
theorem c10_cost_zero_witness :
    calculate_metrics [scenFile] none 0 = .ok scenMetrics ∧ scenMetrics.cost_usd = 0 :=
  ⟨rfl, c10_cost_zero [scenFile] none 0 scenMetrics rfl⟩

/-! Lemmas about the since filter. -/

theorem utcInstant_toAware (d : PyDatetime) : utcInstant (toAwareUTC d) = utcInstant d := by
  rcases d with ⟨w, tz⟩
  cases tz <;> simp [toAwareUTC, utcInstant]

theorem pyDtLe_aware (a b : PyDatetime) :
    pyDtLe (toAwareUTC a) (toAwareUTC b) =
      .ok (decide (utcInstant (toAwareUTC a) ≤ utcInstant (toAwareUTC b))) := by
  rcases a with ⟨wa, tza⟩
  rcases b with ⟨wb, tzb⟩
  cases tza <;> cases tzb <;> simp [pyDtLe, toAwareUTC, utcInstant, Int.sub_zero]

theorem sinceSkip_some (T : PyDatetime) (i : ClaudeInteraction) :
    sinceSkip (some T) i = .ok (!keepAfterB T i) := by
  have h1 : sinceSkip (some T) i = pyDtLe (toAwareUTC i.timestamp) (toAwareUTC T) := rfl
  unfold keepAfterB
  rw [h1, pyDtLe_aware]
  congr 1
  rw [utcInstant_toAware, utcInstant_toAware]
  by_cases h : utcInstant i.timestamp ≤ utcInstant T
  · simp [h, not_lt.mpr h]
  · simp [h, lt_of_not_le h]

theorem foldOne_kept (T : PyDatetime) (m : SessionMetrics) (i : ClaudeInteraction)
    (hk : keepAfterB T i = true) : foldOne (some T) m i = foldOne none m i := by
  unfold foldOne
  rw [sinceSkip_some, hk]
  rfl

theorem foldOne_skipped (T : PyDatetime) (m : SessionMetrics) (i : ClaudeInteraction)
    (hk : keepAfterB T i = false) : foldOne (some T) m i = .ok m := by
  unfold foldOne
  rw [sinceSkip_some, hk]
  rfl

theorem metricsLoop_since_filter (T : PyDatetime) (l : List ClaudeInteraction) :
    ∀ m, metricsLoop (some T) m l = metricsLoop none m (l.filter (keepAfterB T)) := by
  induction l with
  | nil => intro m; rfl
  | cons i rest ih =>
    intro m
    unfold metricsLoop
    rw [List.foldlM_cons]
    cases hk : keepAfterB T i with
    | false =>
      rw [foldOne_skipped T m i hk]
      simp only [ok_bind]
      rw [List.filter_cons_of_neg (by simp [hk])]
      exact ih m
    | true =>
      rw [foldOne_kept T m i hk]
      rw [List.filter_cons_of_pos (by simp [hk])]
      rw [List.foldlM_cons]
      cases hfo : foldOne none m i with
      | error e => simp
      | ok m1 =>
        simp only [ok_bind]
        exact ih m1

theorem metricsLoop_append (since : Option PyDatetime) (l1 l2 : List ClaudeInteraction)
    (m : SessionMetrics) :
    metricsLoop since m (l1 ++ l2) =
      metricsLoop since m l1 >>= fun m1 => metricsLoop since m1 l2 := by
  unfold metricsLoop
  exact List.foldlM_append ..

theorem calc_eq_loop (files : List (List Char)) (since : Option PyDatetime) (now : Int) :
    calculate_metrics files since now = metricsLoop since {} (parsedOf files now) := by
  unfold calculate_metrics parsedOf
  suffices H : ∀ acc : SessionMetrics,
      files.foldlM (fun mm f => metricsLoop since mm (parse_conversation_file f now)) acc =
        metricsLoop since acc ((files.map (fun f => parse_conversation_file f now)).flatten) by
    exact H {}
  induction files with
  | nil => intro acc; rfl
  | cons f fs ih =>
    intro acc
    rw [List.foldlM_cons, List.map_cons, List.flatten_cons, metricsLoop_append]
    cases hfo : metricsLoop since acc (parse_conversation_file f now) with
    | error e => simp
    | ok m1 =>
      simp only [ok_bind]
      exact ih m1

theorem filter_flatten_comm (files : List (List Char)) (now : Int) (p : ClaudeInteraction → Bool) :
    (files.map (fun f => (parse_conversation_file f now).filter p)).flatten =
      ((files.map (fun f => parse_conversation_file f now)).flatten).filter p := by
  induction files with
  | nil => rfl
  | cons f fs ih =>
    simp only [List.map_cons, List.flatten_cons, List.filter_append, ih]

/-- C2 (counterexample): with one file holding an aware assistant record 30
seconds after T0 and a record with no timestamp -- whose extraction stores
the naive utcnow fallback -- both records pass the exclusive since filter,
so the merged list mixes a naive with an aware timestamp, the sort at
reader.py line 134 raises TypeError, and read_all_interactions returns
nothing: in particular the record strictly after T0 is not included,
refuting the claim's unconditional inclusion for this path. -/
theorem c2_mixed_sort_raises :
    read_all_interactions [mixFile] (some t0) none mixNow = Except.error () ∧
    ((parsedOf [mixFile] mixNow).filter (keepAfterB t0)).length = 2 ∧
    ((parsedOf [mixFile] mixNow).filter (keepAfterB t0)).map
        (fun i => i.timestamp.tz.isSome) = [true, false] := by
  exact ⟨rfl, by decide, by decide⟩

/-- C2 (amended): the since bound is exclusive on both query paths.  For the
aggregation, calculate_metrics with since equal to T computes exactly the
no-filter fold over the interactions whose UTC-normalized timestamp is
strictly greater than T.  read_all_interactions applies the same exclusive
bound provided the parsed timestamps do not mix naive and aware (otherwise
the sort raises, see the counterexample): the call returns a list, and an
interaction is in it exactly when it is among the parsed interactions and
its UTC-normalized timestamp is strictly greater than T -- so a record at T
exactly is excluded and one at T plus one second is included. -/
theorem c2_since_exclusive (files : List (List Char)) (T : PyDatetime) (now : Int)
    (i : ClaudeInteraction)
    (hhom : (parsedOf files now).all (fun j => j.timestamp.tz.isSome) = true ∨
      (parsedOf files now).all (fun j => j.timestamp.tz.isNone) = true) :
    calculate_metrics files (some T) now =
      metricsLoop none {} ((parsedOf files now).filter (keepAfterB T)) ∧
    ∃ l, read_all_interactions files (some T) none now = Except.ok l ∧
      (i ∈ l ↔ i ∈ parsedOf files now ∧
        utcInstant (toAwareUTC T) < utcInstant (toAwareUTC i.timestamp)) := by
  constructor
  · rw [calc_eq_loop]
    exact metricsLoop_since_filter T (parsedOf files now) {}
  · unfold read_all_interactions
    simp only []
    rw [filter_flatten_comm files now (keepAfterB T)]
    have hcond : ¬ ((((files.map (fun f => parse_conversation_file f now)).flatten.filter
          (keepAfterB T)).any (fun i => i.timestamp.tz.isSome) &&
        ((files.map (fun f => parse_conversation_file f now)).flatten.filter
          (keepAfterB T)).any (fun i => i.timestamp.tz.isNone)) = true) := by
      intro hc
      rw [Bool.and_eq_true] at hc
      obtain ⟨hS, hN⟩ := hc
      rw [List.any_eq_true] at hS hN
      obtain ⟨x, hxmem, hx⟩ := hS
      obtain ⟨y, hymem, hy⟩ := hN
      have hx2 : x ∈ parsedOf files now := (List.mem_filter.mp hxmem).1
      have hy2 : y ∈ parsedOf files now := (List.mem_filter.mp hymem).1
      rcases hhom with hA | hNall
      · rw [List.all_eq_true] at hA
        have hya := hA y hy2
        cases hopt : y.timestamp.tz with
        | none => rw [hopt] at hya; exact Bool.false_ne_true hya
        | some v => rw [hopt] at hy; exact Bool.false_ne_true hy
      · rw [List.all_eq_true] at hNall
        have hxn := hNall x hx2
        cases hopt : x.timestamp.tz with
        | none => rw [hopt] at hx; exact Bool.false_ne_true hx
        | some v => rw [hopt] at hxn; exact Bool.false_ne_true hxn
    rw [if_neg hcond]
    refine ⟨_, rfl, ?_⟩
    rw [List.mem_mergeSort]
    rw [List.mem_filter]
    unfold parsedOf keepAfterB
    simp [decide_eq_true_iff]

/-- C2 (witness): the amended statement at the worked example's three-line
file (all parsed timestamps aware), T0, and a concrete probe
interaction. -/
theorem c2_since_exclusive_witness :
    calculate_metrics [scenFile] (some t0) 0 =
      metricsLoop none {} ((parsedOf [scenFile] 0).filter (keepAfterB t0)) ∧
    ∃ l, read_all_interactions [scenFile] (some t0) none 0 = Except.ok l ∧
      (noTsInteraction 0 ∈ l ↔ noTsInteraction 0 ∈ parsedOf [scenFile] 0 ∧
        utcInstant (toAwareUTC t0) < utcInstant (toAwareUTC (noTsInteraction 0).timestamp)) :=
  c2_since_exclusive [scenFile] t0 0 (noTsInteraction 0) (by decide)

theorem assistantUpdate_good (m : SessionMetrics) (i : ClaudeInteraction) (x y a b : Int)
    (hx : m.tokens_in = .num x) (hy : m.tokens_out = .num y)
    (hia : i.tokens_in = .num a) (hib : i.tokens_out = .num b)
    (hmod : modelOkB i = true) :
    assistantUpdate m i = .ok
      { m with
        interactions := m.interactions + (if isAssistantRole i.role then 1 else 0)
        tokens_in := .num (x + (if isAssistantRole i.role then a else 0))
        tokens_out := .num (y + (if isAssistantRole i.role then b else 0))
        models_used :=
          if isAssistantRole i.role then modelsUpd m.models_used i.model
          else m.models_used } := by
  unfold assistantUpdate
  by_cases hr : isAssistantRole i.role = true
  · simp only [hr, if_true, hx, hy, hia, hib]
    have h1 : pyAddJson (Json.num x) (Json.num a) = Except.ok (Json.num (x + a)) := rfl
    have h2 : pyAddJson (Json.num y) (Json.num b) = Except.ok (Json.num (y + b)) := rfl
    rw [h1]
    simp only [ok_bind]
    rw [h2]
    simp only [ok_bind]
    by_cases ht : pyTruthy i.model = true
    · simp only [ht, if_true]
      cases hk : pyHashKey i.model with
      | error e => simp [modelOkB, ht, hk] at hmod
      | ok k =>
        unfold pySetAdd
        rw [hk]
        simp only [ok_bind]
        by_cases hmem : pySetMem m.models_used k = true
        · simp [hmem, modelsUpd, ht, hk]
        · simp [hmem, modelsUpd, ht, hk]
    · simp only [ht, if_false]
      simp [modelsUpd, ht]
  · simp only [hr, if_false]
    simp only [Bool.not_eq_true] at hr
    simp only [hr, Bool.false_eq_true, if_false]
    simp only [pure_eq_ok, Nat.add_zero, Int.add_zero]
    rw [← hx, ← hy]
theorem tokNum_exists (j : Json) (h : tokNumB j = true) : ∃ n, j = Json.num n := by
  cases j with
  | num n => exact ⟨n, rfl⟩
  | null => simp [tokNumB] at h
  | bool b => simp [tokNumB] at h
  | str s => simp [tokNumB] at h
  | arr xs => simp [tokNumB] at h
  | obj fs => simp [tokNumB] at h

theorem pyDtLt_aware_aware (a b : PyDatetime) (ha : a.tz.isSome = true)
    (hb : b.tz.isSome = true) :
    pyDtLt a b = .ok (decide (utcInstant a < utcInstant b)) := by
  rcases a with ⟨wa, tza⟩
  rcases b with ⟨wb, tzb⟩
  cases tza with
  | none => simp at ha
  | some oa =>
    cases tzb with
    | none => simp at hb
    | some ob => simp [pyDtLt, utcInstant]

theorem firstUpdate_good (o : Option PyDatetime) (t : PyDatetime)
    (ho : awareOpt o = true) (ht : t.tz.isSome = true) :
    firstUpdate o t = .ok (some (updFirst o t)) := by
  cases o with
  | none => rfl
  | some f =>
    have he : firstUpdate (some f) t =
        (pyDtLt t f >>= fun lt => Except.ok (if lt then some t else some f)) := rfl
    rw [he, pyDtLt_aware_aware t f ht ho]
    simp only [ok_bind]
    unfold updFirst
    by_cases h : utcInstant t < utcInstant f <;> simp [h]

theorem lastUpdate_good (o : Option PyDatetime) (t : PyDatetime)
    (ho : awareOpt o = true) (ht : t.tz.isSome = true) :
    lastUpdate o t = .ok (some (updLast o t)) := by
  cases o with
  | none => rfl
  | some l =>
    have he : lastUpdate (some l) t =
        (pyDtLt l t >>= fun gt => Except.ok (if gt then some t else some l)) := rfl
    rw [he, pyDtLt_aware_aware l t ho ht]
    simp only [ok_bind]
    unfold updLast
    by_cases h : utcInstant l < utcInstant t <;> simp [h]

theorem updFirst_aware (o : Option PyDatetime) (t : PyDatetime)
    (ho : awareOpt o = true) (ht : t.tz.isSome = true) :
    (updFirst o t).tz.isSome = true := by
  cases o with
  | none => exact ht
  | some f =>
    unfold updFirst
    by_cases h : utcInstant t < utcInstant f <;> simp [h, ht]
    exact ho

theorem updLast_aware (o : Option PyDatetime) (t : PyDatetime)
    (ho : awareOpt o = true) (ht : t.tz.isSome = true) :
    (updLast o t).tz.isSome = true := by
  cases o with
  | none => exact ht
  | some l =>
    unfold updLast
    by_cases h : utcInstant l < utcInstant t <;> simp [h, ht]
    exact ho

theorem foldOne_none_good (m : SessionMetrics) (i : ClaudeInteraction) (x y : Int)
    (hA : i.timestamp.tz.isSome = true)
    (hti : tokNumB i.tokens_in = true) (hto : tokNumB i.tokens_out = true)
    (hmod : modelOkB i = true)
    (hx : m.tokens_in = Json.num x) (hy : m.tokens_out = Json.num y)
    (hof : awareOpt m.first_timestamp = true) (hol : awareOpt m.last_timestamp = true) :
    foldOne none m i = .ok
      { interactions := m.interactions + (if isAssistantRole i.role then 1 else 0)
        tokens_in := Json.num (x + (if isAssistantRole i.role then jint i.tokens_in else 0))
        tokens_out := Json.num (y + (if isAssistantRole i.role then jint i.tokens_out else 0))
        cost_usd := m.cost_usd
        first_timestamp := some (updFirst m.first_timestamp i.timestamp)
        last_timestamp := some (updLast m.last_timestamp i.timestamp)
        models_used :=
          if isAssistantRole i.role then modelsUpd m.models_used i.model
          else m.models_used } := by
  obtain ⟨a, hia⟩ := tokNum_exists _ hti
  obtain ⟨b, hib⟩ := tokNum_exists _ hto
  unfold foldOne
  rw [show sinceSkip none i = Except.ok false from rfl]
  simp only [ok_bind]
  rw [if_neg (by simp)]
  rw [assistantUpdate_good m i x y a b hx hy hia hib hmod]
  simp only [ok_bind]
  rw [firstUpdate_good m.first_timestamp i.timestamp hof hA]
  simp only [ok_bind]
  rw [lastUpdate_good m.last_timestamp i.timestamp hol hA]
  simp only [ok_bind, pure_eq_ok, Except.ok.injEq, SessionMetrics.mk.injEq]
  rw [hia, hib]
  simp [jint]

theorem assistantCount_cons (i : ClaudeInteraction) (rest : List ClaudeInteraction) :
    assistantCount (i :: rest) =
      (if isAssistantRole i.role then 1 else 0) + assistantCount rest := by
  unfold assistantCount
  rw [List.filter_cons]
  by_cases h : isAssistantRole i.role <;> simp [h, Nat.add_comm]

theorem tokensInSum_cons (i : ClaudeInteraction) (rest : List ClaudeInteraction) :
    tokensInSum (i :: rest) =
      (if isAssistantRole i.role then jint i.tokens_in else 0) + tokensInSum rest := by
  unfold tokensInSum
  rw [List.filter_cons]
  by_cases h : isAssistantRole i.role <;> simp [h]

theorem tokensOutSum_cons (i : ClaudeInteraction) (rest : List ClaudeInteraction) :
    tokensOutSum (i :: rest) =
      (if isAssistantRole i.role then jint i.tokens_out else 0) + tokensOutSum rest := by
  unfold tokensOutSum
  rw [List.filter_cons]
  by_cases h : isAssistantRole i.role <;> simp [h]

theorem metricsLoop_none_spec (l : List ClaudeInteraction) :
    ∀ (m : SessionMetrics) (x y : Int),
      allAwareB l = true → allTokNumB l = true → allModelsOkB l = true →
      m.tokens_in = Json.num x → m.tokens_out = Json.num y →
      awareOpt m.first_timestamp = true → awareOpt m.last_timestamp = true →
      ∃ m2, metricsLoop none m l = .ok m2 ∧
        m2.interactions = m.interactions + assistantCount l ∧
        m2.tokens_in = Json.num (x + tokensInSum l) ∧
        m2.tokens_out = Json.num (y + tokensOutSum l) ∧
        m2.cost_usd = m.cost_usd ∧
        m2.first_timestamp = foldFirst m.first_timestamp l ∧
        m2.last_timestamp = foldLast m.last_timestamp l := by
  induction l with
  | nil =>
    intro m x y _ _ _ hx hy _ _
    refine ⟨m, rfl, by simp [assistantCount], ?_, ?_, rfl, rfl, rfl⟩
    · rw [hx]; simp [tokensInSum]
    · rw [hy]; simp [tokensOutSum]
  | cons i rest ih =>
    intro m x y hA hT hM hx hy hof hol
    simp only [allAwareB, allTokNumB, allModelsOkB, List.all_cons, Bool.and_eq_true] at hA hT hM
    have hstep := foldOne_none_good m i x y hA.1 hT.1.1 hT.1.2 hM.1 hx hy hof hol
    unfold metricsLoop
    rw [List.foldlM_cons, hstep]
    simp only [ok_bind]
    obtain ⟨m2, hloop, hint, hti2, hto2, hc2, hf2, hl2⟩ :=
      ih { interactions := m.interactions + (if isAssistantRole i.role then 1 else 0)
           tokens_in := Json.num (x + (if isAssistantRole i.role then jint i.tokens_in else 0))
           tokens_out := Json.num (y + (if isAssistantRole i.role then jint i.tokens_out else 0))
           cost_usd := m.cost_usd
           first_timestamp := some (updFirst m.first_timestamp i.timestamp)
           last_timestamp := some (updLast m.last_timestamp i.timestamp)
           models_used :=
             if isAssistantRole i.role then modelsUpd m.models_used i.model
             else m.models_used }
        (x + (if isAssistantRole i.role then jint i.tokens_in else 0))
        (y + (if isAssistantRole i.role then jint i.tokens_out else 0))
        (by simp only [allAwareB]; exact hA.2)
        (by simp only [allTokNumB]; exact hT.2)
        (by simp only [allModelsOkB]; exact hM.2)
        rfl rfl
        (updFirst_aware m.first_timestamp i.timestamp hof hA.1)
        (updLast_aware m.last_timestamp i.timestamp hol hA.1)
    refine ⟨m2, hloop, ?_, ?_, ?_, hc2, hf2, hl2⟩
    · rw [hint, assistantCount_cons]
      show m.interactions + (if isAssistantRole i.role then 1 else 0) + assistantCount rest = _
      omega
    · rw [hti2, tokensInSum_cons]
      show Json.num (x + (if isAssistantRole i.role then jint i.tokens_in else 0) + tokensInSum rest) = _
      congr 1
      ring
    · rw [hto2, tokensOutSum_cons]
      show Json.num (y + (if isAssistantRole i.role then jint i.tokens_out else 0) + tokensOutSum rest) = _
      congr 1
      ring

theorem foldFirst_map_min (l : List ClaudeInteraction) :
    ∀ o : Option PyDatetime,
      (foldFirst o l).map utcInstant = (instantsOf l).foldl minStep (o.map utcInstant) := by
  induction l with
  | nil => intro o; rfl
  | cons i rest ih =>
    intro o
    have hstep : (foldFirst o (i :: rest)) = foldFirst (some (updFirst o i.timestamp)) rest := rfl
    have hinst : instantsOf (i :: rest) = utcInstant i.timestamp :: instantsOf rest := rfl
    rw [hstep, hinst, List.foldl_cons, ih]
    congr 1
    cases o with
    | none => rfl
    | some f =>
      unfold updFirst minStep
      by_cases h : utcInstant i.timestamp < utcInstant f <;> simp [h] <;> omega

theorem foldLast_map_max (l : List ClaudeInteraction) :
    ∀ o : Option PyDatetime,
      (foldLast o l).map utcInstant = (instantsOf l).foldl maxStep (o.map utcInstant) := by
  induction l with
  | nil => intro o; rfl
  | cons i rest ih =>
    intro o
    have hstep : (foldLast o (i :: rest)) = foldLast (some (updLast o i.timestamp)) rest := rfl
    have hinst : instantsOf (i :: rest) = utcInstant i.timestamp :: instantsOf rest := rfl
    rw [hstep, hinst, List.foldl_cons, ih]
    congr 1
    cases o with
    | none => rfl
    | some f =>
      unfold updLast maxStep
      by_cases h : utcInstant f < utcInstant i.timestamp <;> simp [h] <;> omega

theorem foldFirst_cases (l : List ClaudeInteraction) :
    ∀ o, foldFirst o l = o ∨ ∃ j ∈ l, foldFirst o l = some j.timestamp := by
  induction l with
  | nil => intro o; exact Or.inl rfl
  | cons i rest ih =>
    intro o
    have hstep : (foldFirst o (i :: rest)) = foldFirst (some (updFirst o i.timestamp)) rest := rfl
    rcases ih (some (updFirst o i.timestamp)) with h | ⟨j, hj, hje⟩
    · rw [hstep, h]
      cases o with
      | none => exact Or.inr ⟨i, List.mem_cons_self _ _, rfl⟩
      | some f =>
        unfold updFirst
        by_cases hc : utcInstant i.timestamp < utcInstant f
        · exact Or.inr ⟨i, List.mem_cons_self _ _, by simp [hc]⟩
        · exact Or.inl (by simp [hc])
    · exact Or.inr ⟨j, List.mem_cons_of_mem _ hj, by rw [hstep, hje]⟩

theorem foldLast_cases (l : List ClaudeInteraction) :
    ∀ o, foldLast o l = o ∨ ∃ j ∈ l, foldLast o l = some j.timestamp := by
  induction l with
  | nil => intro o; exact Or.inl rfl
  | cons i rest ih =>
    intro o
    have hstep : (foldLast o (i :: rest)) = foldLast (some (updLast o i.timestamp)) rest := rfl
    rcases ih (some (updLast o i.timestamp)) with h | ⟨j, hj, hje⟩
    · rw [hstep, h]
      cases o with
      | none => exact Or.inr ⟨i, List.mem_cons_self _ _, rfl⟩
      | some f =>
        unfold updLast
        by_cases hc : utcInstant f < utcInstant i.timestamp
        · exact Or.inr ⟨i, List.mem_cons_self _ _, by simp [hc]⟩
        · exact Or.inl (by simp [hc])
    · exact Or.inr ⟨j, List.mem_cons_of_mem _ hj, by rw [hstep, hje]⟩

/-- C1: for every set of conversation files whose parsed interactions carry
aware timestamps, numeric token fields and well-behaved model values,
calculate_metrics succeeds and counts interactions, tokens_in and
tokens_out over the assistant-role interactions only, while
first_timestamp/last_timestamp attain the minimum/maximum UTC instant over
the interactions of both roles and are timestamps of interactions of the
stream; and the worked example -- user record at T0, malformed line,
assistant record at T0 plus 30 seconds with usage 100/50 -- yields exactly
SessionMetrics(interactions 1, tokens_in 100, tokens_out 50,
first_timestamp T0, last_timestamp T0 plus 30s). -/
theorem c1_metrics_assistant_only :
    (∀ (files : List (List Char)) (now : Int),
      allAwareB (parsedOf files now) = true →
      allTokNumB (parsedOf files now) = true →
      allModelsOkB (parsedOf files now) = true →
      ∃ m2, calculate_metrics files none now = .ok m2 ∧
        m2.interactions = assistantCount (parsedOf files now) ∧
        m2.tokens_in = Json.num (tokensInSum (parsedOf files now)) ∧
        m2.tokens_out = Json.num (tokensOutSum (parsedOf files now)) ∧
        Option.map utcInstant m2.first_timestamp = listMin? (instantsOf (parsedOf files now)) ∧
        Option.map utcInstant m2.last_timestamp = listMax? (instantsOf (parsedOf files now)) ∧
        (m2.first_timestamp = none ∨
          ∃ j ∈ parsedOf files now, m2.first_timestamp = some j.timestamp) ∧
        (m2.last_timestamp = none ∨
          ∃ j ∈ parsedOf files now, m2.last_timestamp = some j.timestamp)) ∧
    calculate_metrics [scenFile] none 0 = .ok scenMetrics := by
  constructor
  · intro files now hA hT hM
    rw [calc_eq_loop]
    obtain ⟨m2, hloop, hint, hti, hto, _, hf, hl⟩ :=
      metricsLoop_none_spec (parsedOf files now) {} 0 0 hA hT hM rfl rfl rfl rfl
    refine ⟨m2, hloop, ?_, ?_, ?_, ?_, ?_, ?_, ?_⟩
    · rw [hint]; simp
    · rw [hti]; congr 1; ring
    · rw [hto]; congr 1; ring
    · rw [hf]
      exact foldFirst_map_min (parsedOf files now) none
    · rw [hl]
      exact foldLast_map_max (parsedOf files now) none
    · rw [hf]
      exact foldFirst_cases (parsedOf files now) none
    · rw [hl]
      exact foldLast_cases (parsedOf files now) none
  · rfl

/-- C1 (witness): the general statement applied to the worked example. -/
theorem c1_metrics_witness :
    ∃ m2, calculate_metrics [scenFile] none 0 = .ok m2 ∧
      m2.interactions = 1 ∧ m2.tokens_in = Json.num 100 ∧ m2.tokens_out = Json.num 50 ∧
      Option.map utcInstant m2.first_timestamp = some (utcInstant t0) ∧
      Option.map utcInstant m2.last_timestamp = some (utcInstant t1) := by
  obtain ⟨m2, hok, h1, h2, h3, h4, h5, _, _⟩ :=
    c1_metrics_assistant_only.1 [scenFile] 0 (by decide) (by decide) (by decide)
  refine ⟨m2, hok, ?_, ?_, ?_, ?_, ?_⟩
  · rw [h1]; decide
  · rw [h2]; rfl
  · rw [h3]; rfl
  · rw [h4]; rfl
  · rw [h5]; rfl

/-! Step equations for the two per-line loops, one per branch of the
source. -/

theorem plw_cons_blank (line : List Char) (rest : List (List Char)) (now : Int)
    (h : (pyStrip line).isEmpty = true) :
    process_lines_w (line :: rest) now = process_lines_w rest now := by
  conv_lhs => unfold process_lines_w
  rw [if_pos h]

theorem plw_cons_badjson (line : List Char) (rest : List (List Char)) (now : Int)
    (h1 : (pyStrip line).isEmpty = false) (h2 : parse_jsonl_line line = none) :
    process_lines_w (line :: rest) now = process_lines_w rest now := by
  conv_lhs => unfold process_lines_w
  rw [if_neg (by simp [h1]), h2]

theorem plw_cons_falsy (line : List Char) (rest : List (List Char)) (now : Int) (entry : Json)
    (h1 : (pyStrip line).isEmpty = false) (h2 : parse_jsonl_line line = some entry)
    (h3 : pyTruthy entry = false) :
    process_lines_w (line :: rest) now = process_lines_w rest now := by
  conv_lhs => unfold process_lines_w
  rw [if_neg (by simp [h1]), h2]
  simp [h3]

theorem plw_cons_err (line : List Char) (rest : List (List Char)) (now : Int) (entry : Json)
    (e : Unit) (h1 : (pyStrip line).isEmpty = false) (h2 : parse_jsonl_line line = some entry)
    (h3 : pyTruthy entry = true) (h4 : extract_interaction entry now = .error e) :
    process_lines_w (line :: rest) now = ([], true) := by
  conv_lhs => unfold process_lines_w
  rw [if_neg (by simp [h1]), h2]
  simp [h3, h4]

theorem plw_cons_ok_none (line : List Char) (rest : List (List Char)) (now : Int) (entry : Json)
    (h1 : (pyStrip line).isEmpty = false) (h2 : parse_jsonl_line line = some entry)
    (h3 : pyTruthy entry = true) (h4 : extract_interaction entry now = .ok none) :
    process_lines_w (line :: rest) now = process_lines_w rest now := by
  conv_lhs => unfold process_lines_w
  rw [if_neg (by simp [h1]), h2]
  simp [h3, h4]

theorem plw_cons_ok_some (line : List Char) (rest : List (List Char)) (now : Int) (entry : Json)
    (i : ClaudeInteraction) (h1 : (pyStrip line).isEmpty = false)
    (h2 : parse_jsonl_line line = some entry) (h3 : pyTruthy entry = true)
    (h4 : extract_interaction entry now = .ok (some i)) :
    process_lines_w (line :: rest) now =
      (i :: (process_lines_w rest now).1, (process_lines_w rest now).2) := by
  conv_lhs => unfold process_lines_w
  rw [if_neg (by simp [h1]), h2]
  simp [h3, h4]

theorem pl_cons_blank (line : List Char) (rest : List (List Char)) (now : Int)
    (h : (pyStrip line).isEmpty = true) :
    parse_lines (line :: rest) now = parse_lines rest now := by
  conv_lhs => unfold parse_lines
  rw [if_pos h]

theorem pl_cons_badjson (line : List Char) (rest : List (List Char)) (now : Int)
    (h1 : (pyStrip line).isEmpty = false) (h2 : parse_jsonl_line line = none) :
    parse_lines (line :: rest) now = parse_lines rest now := by
  conv_lhs => unfold parse_lines
  rw [if_neg (by simp [h1]), h2]

theorem pl_cons_falsy (line : List Char) (rest : List (List Char)) (now : Int) (entry : Json)
    (h1 : (pyStrip line).isEmpty = false) (h2 : parse_jsonl_line line = some entry)
    (h3 : pyTruthy entry = false) :
    parse_lines (line :: rest) now = parse_lines rest now := by
  conv_lhs => unfold parse_lines
  rw [if_neg (by simp [h1]), h2]
  simp [h3]

theorem pl_cons_err (line : List Char) (rest : List (List Char)) (now : Int) (entry : Json)
    (e : Unit) (h1 : (pyStrip line).isEmpty = false) (h2 : parse_jsonl_line line = some entry)
    (h3 : pyTruthy entry = true) (h4 : extract_interaction entry now = .error e) :
    parse_lines (line :: rest) now = [] := by
  conv_lhs => unfold parse_lines
  rw [if_neg (by simp [h1]), h2]
  simp [h3, h4]

theorem pl_cons_ok_none (line : List Char) (rest : List (List Char)) (now : Int) (entry : Json)
    (h1 : (pyStrip line).isEmpty = false) (h2 : parse_jsonl_line line = some entry)
    (h3 : pyTruthy entry = true) (h4 : extract_interaction entry now = .ok none) :
    parse_lines (line :: rest) now = parse_lines rest now := by
  conv_lhs => unfold parse_lines
  rw [if_neg (by simp [h1]), h2]
  simp [h3, h4]

theorem pl_cons_ok_some (line : List Char) (rest : List (List Char)) (now : Int) (entry : Json)
    (i : ClaudeInteraction) (h1 : (pyStrip line).isEmpty = false)
    (h2 : parse_jsonl_line line = some entry) (h3 : pyTruthy entry = true)
    (h4 : extract_interaction entry now = .ok (some i)) :
    parse_lines (line :: rest) now = i :: parse_lines rest now := by
  conv_lhs => unfold parse_lines
  rw [if_neg (by simp [h1]), h2]
  simp [h3, h4]

theorem process_lines_fst (ls : List (List Char)) (now : Int) :
    (process_lines_w ls now).1 = parse_lines ls now := by
  induction ls with
  | nil => rfl
  | cons line rest ih =>
    by_cases hb : (pyStrip line).isEmpty = true
    · rw [plw_cons_blank line rest now hb, pl_cons_blank line rest now hb]; exact ih
    · have hb2 : (pyStrip line).isEmpty = false := by simpa using hb
      cases hp : parse_jsonl_line line with
      | none =>
        rw [plw_cons_badjson line rest now hb2 hp, pl_cons_badjson line rest now hb2 hp]
        exact ih
      | some entry =>
        by_cases ht : pyTruthy entry = true
        · cases he : extract_interaction entry now with
          | error e =>
            rw [plw_cons_err line rest now entry e hb2 hp ht he,
              pl_cons_err line rest now entry e hb2 hp ht he]
          | ok oi =>
            cases oi with
            | none =>
              rw [plw_cons_ok_none line rest now entry hb2 hp ht he,
                pl_cons_ok_none line rest now entry hb2 hp ht he]
              exact ih
            | some i =>
              rw [plw_cons_ok_some line rest now entry i hb2 hp ht he,
                pl_cons_ok_some line rest now entry i hb2 hp ht he]
              simp [ih]
        · have ht2 : pyTruthy entry = false := by simpa using ht
          rw [plw_cons_falsy line rest now entry hb2 hp ht2,
            pl_cons_falsy line rest now entry hb2 hp ht2]
          exact ih

theorem process_lines_flag_append (ls1 ls2 : List (List Char)) (now : Int)
    (h : (process_lines_w (ls1 ++ ls2) now).2 = false) :
    (process_lines_w ls1 now).2 = false ∧ (process_lines_w ls2 now).2 = false := by
  induction ls1 with
  | nil => exact ⟨rfl, h⟩
  | cons line rest ih =>
    rw [List.cons_append] at h
    by_cases hb : (pyStrip line).isEmpty = true
    · rw [plw_cons_blank _ _ now hb] at h
      rw [plw_cons_blank line rest now hb]
      exact ih h
    · have hb2 : (pyStrip line).isEmpty = false := by simpa using hb
      cases hp : parse_jsonl_line line with
      | none =>
        rw [plw_cons_badjson _ _ now hb2 hp] at h
        rw [plw_cons_badjson line rest now hb2 hp]
        exact ih h
      | some entry =>
        by_cases ht : pyTruthy entry = true
        · cases he : extract_interaction entry now with
          | error e =>
            rw [plw_cons_err _ _ now entry e hb2 hp ht he] at h
            simp at h
          | ok oi =>
            cases oi with
            | none =>
              rw [plw_cons_ok_none _ _ now entry hb2 hp ht he] at h
              rw [plw_cons_ok_none line rest now entry hb2 hp ht he]
              exact ih h
            | some i =>
              rw [plw_cons_ok_some _ _ now entry i hb2 hp ht he] at h
              rw [plw_cons_ok_some line rest now entry i hb2 hp ht he]
              exact ih h
        · have ht2 : pyTruthy entry = false := by simpa using ht
          rw [plw_cons_falsy _ _ now entry hb2 hp ht2] at h
          rw [plw_cons_falsy line rest now entry hb2 hp ht2]
          exact ih h

theorem parse_lines_append (ls1 ls2 : List (List Char)) (now : Int)
    (h : (process_lines_w ls1 now).2 = false) :
    parse_lines (ls1 ++ ls2) now = parse_lines ls1 now ++ parse_lines ls2 now := by
  induction ls1 with
  | nil => rfl
  | cons line rest ih =>
    rw [List.cons_append]
    by_cases hb : (pyStrip line).isEmpty = true
    · rw [plw_cons_blank line rest now hb] at h
      rw [pl_cons_blank _ _ now hb, pl_cons_blank line rest now hb]
      exact ih h
    · have hb2 : (pyStrip line).isEmpty = false := by simpa using hb
      cases hp : parse_jsonl_line line with
      | none =>
        rw [plw_cons_badjson line rest now hb2 hp] at h
        rw [pl_cons_badjson _ _ now hb2 hp, pl_cons_badjson line rest now hb2 hp]
        exact ih h
      | some entry =>
        by_cases ht : pyTruthy entry = true
        · cases he : extract_interaction entry now with
          | error e =>
            rw [plw_cons_err line rest now entry e hb2 hp ht he] at h
            simp at h
          | ok oi =>
            cases oi with
            | none =>
              rw [plw_cons_ok_none line rest now entry hb2 hp ht he] at h
              rw [pl_cons_ok_none _ _ now entry hb2 hp ht he,
                pl_cons_ok_none line rest now entry hb2 hp ht he]
              exact ih h
            | some i =>
              rw [plw_cons_ok_some line rest now entry i hb2 hp ht he] at h
              rw [pl_cons_ok_some _ _ now entry i hb2 hp ht he,
                pl_cons_ok_some line rest now entry i hb2 hp ht he]
              rw [List.cons_append, ih h]
        · have ht2 : pyTruthy entry = false := by simpa using ht
          rw [plw_cons_falsy line rest now entry hb2 hp ht2] at h
          rw [pl_cons_falsy _ _ now entry hb2 hp ht2, pl_cons_falsy line rest now entry hb2 hp ht2]
          exact ih h

/-- C5 (amended): a line with malformed JSON is skipped and processing
continues: as long as no earlier line raises inside extraction, the parse of
a file with a malformed-JSON line in the middle equals the parse of the
lines before it followed by the parse of the lines after it, so every
well-formed record after the malformed line still appears.  (A truthy
valid-JSON line that is not an object, by contrast, aborts the remainder of
the file -- see the counterexample.) -/
theorem c5_malformed_skipped (pre post : List (List Char)) (bad : List Char) (now : Int)
    (hpre : (process_lines_w pre now).2 = false)
    (hblank : (pyStrip bad).isEmpty = false)
    (hbad : (parse_jsonl_line bad).isNone = true) :
    parse_lines (pre ++ bad :: post) now = parse_lines pre now ++ parse_lines post now := by
  rw [parse_lines_append pre (bad :: post) now hpre]
  congr 1
  exact pl_cons_badjson bad post now hblank (Option.isNone_iff_eq_none.mp hbad)

/-- C5 (witness): the amended statement at the worked example, whose middle
line is malformed JSON. -/
theorem c5_malformed_skipped_witness :
    (process_lines_w [scenUserLine] 0).2 = false ∧
    (pyStrip scenBadLine).isEmpty = false ∧
    (parse_jsonl_line scenBadLine).isNone = true ∧
    parse_lines ([scenUserLine] ++ scenBadLine :: [scenAsstLine]) 0 =
      parse_lines [scenUserLine] 0 ++ parse_lines [scenAsstLine] 0 :=
  ⟨by decide, by decide, by decide,
    c5_malformed_skipped [scenUserLine] [scenAsstLine] scenBadLine 0 (by decide) (by decide)
      (by decide)⟩

@[simp] theorem map_ok {α β : Type} (f : α → β) (a : α) :
    Except.map f (Except.ok a : Except Unit α) = Except.ok (f a) := rfl

@[simp] theorem map_error {α β : Type} (f : α → β) (e : Unit) :
    Except.map f (Except.error e : Except Unit α) = Except.error e := rfl

theorem extract_withTs (e : Json) (n : Int) :
    extract_interaction e n = withTs (extract_interaction e 0) (parseTimestamp (tsField e) n) := by
  cases e with
  | obj fs =>
    unfold extract_interaction withTs tsField
    simp only [pyGet, ok_bind]
    by_cases hua : isUserOrAssistant ((pyLookup fs "type".data).getD Json.null) = false
    · simp [hua]
    · have hua2 : isUserOrAssistant ((pyLookup fs "type".data).getD Json.null) = true := by
        simpa using hua
      simp only [hua2, Bool.true_eq_false, if_false]
      cases hmsg : (pyLookup fs "message".data).getD (Json.obj []) with
      | null => rfl
      | bool b => rfl
      | num m => rfl
      | str s => rfl
      | arr xs => rfl
      | obj ms =>
        simp only [ok_bind]
        cases hc : (pyLookup ms "content".data).getD (Json.str []) with
        | str s =>
          simp only [ok_bind]
          cases hu : (pyLookup ms "usage".data).getD (Json.obj []) with
          | obj us =>
            simp only [ok_bind]
            cases ha : pyAddJson ((pyLookup us "input_tokens".data).getD (Json.num 0))
                ((pyLookup us "cache_read_input_tokens".data).getD (Json.num 0)) <;> rfl
          | null => rfl
          | bool b2 => rfl
          | num m2 => rfl
          | str s2 => rfl
          | arr xs2 => rfl
        | null =>
          simp only [ok_bind]
          cases hu : (pyLookup ms "usage".data).getD (Json.obj []) with
          | obj us =>
            simp only [ok_bind]
            cases ha : pyAddJson ((pyLookup us "input_tokens".data).getD (Json.num 0))
                ((pyLookup us "cache_read_input_tokens".data).getD (Json.num 0)) <;> rfl
          | null => rfl
          | bool b2 => rfl
          | num m2 => rfl
          | str s2 => rfl
          | arr xs2 => rfl
        | bool b1 =>
          simp only [ok_bind]
          cases hu : (pyLookup ms "usage".data).getD (Json.obj []) with
          | obj us =>
            simp only [ok_bind]
            cases ha : pyAddJson ((pyLookup us "input_tokens".data).getD (Json.num 0))
                ((pyLookup us "cache_read_input_tokens".data).getD (Json.num 0)) <;> rfl
          | null => rfl
          | bool b2 => rfl
          | num m2 => rfl
          | str s2 => rfl
          | arr xs2 => rfl
        | num m1 =>
          simp only [ok_bind]
          cases hu : (pyLookup ms "usage".data).getD (Json.obj []) with
          | obj us =>
            simp only [ok_bind]
            cases ha : pyAddJson ((pyLookup us "input_tokens".data).getD (Json.num 0))
                ((pyLookup us "cache_read_input_tokens".data).getD (Json.num 0)) <;> rfl
          | null => rfl
          | bool b2 => rfl
          | num m2 => rfl
          | str s2 => rfl
          | arr xs2 => rfl
        | obj os =>
          simp only [ok_bind]
          cases hu : (pyLookup ms "usage".data).getD (Json.obj []) with
          | obj us =>
            simp only [ok_bind]
            cases ha : pyAddJson ((pyLookup us "input_tokens".data).getD (Json.num 0))
                ((pyLookup us "cache_read_input_tokens".data).getD (Json.num 0)) <;> rfl
          | null => rfl
          | bool b2 => rfl
          | num m2 => rfl
          | str s2 => rfl
          | arr xs2 => rfl
        | arr blocks =>
          simp only [ok_bind]
          cases hj : pyJoinNl (contentLoop blocks).1 with
          | error er => rfl
          | ok c =>
            simp only [ok_bind]
            cases hu : (pyLookup ms "usage".data).getD (Json.obj []) with
            | obj us =>
              simp only [ok_bind]
              cases ha : pyAddJson ((pyLookup us "input_tokens".data).getD (Json.num 0))
                  ((pyLookup us "cache_read_input_tokens".data).getD (Json.num 0)) <;> rfl
            | null => rfl
            | bool b2 => rfl
            | num m2 => rfl
            | str s2 => rfl
            | arr xs2 => rfl
  | null => rfl
  | bool b => rfl
  | num m => rfl
  | str s => rfl
  | arr xs => rfl

theorem eqUpToTimestamp_withTs (r : Except Unit (Option ClaudeInteraction)) (t1 t2 : PyDatetime) :
    eqUpToTimestamp (withTs r t1) (withTs r t2) := by
  cases r with
  | error e => exact trivial
  | ok oi =>
    cases oi with
    | none => exact trivial
    | some i =>
      exact ⟨rfl, rfl, rfl, rfl, rfl, rfl, rfl, rfl, rfl⟩

/-- C8 (amended): extract_interaction is deterministic in everything except
the clock fallback: whenever the record's timestamp field parses, two runs
at different clock readings return identical results; and for every record,
two runs agree on every field except possibly the timestamp, which on parse
failure is substituted with the current clock reading. -/
theorem c8_deterministic_up_to_timestamp (e : Json) (n1 n2 : Int) :
    (tsParsesB e = true → extract_interaction e n1 = extract_interaction e n2) ∧
    eqUpToTimestamp (extract_interaction e n1) (extract_interaction e n2) := by
  constructor
  · intro hts
    have ht : parseTimestamp (tsField e) n1 = parseTimestamp (tsField e) n2 := by
      unfold tsParsesB at hts
      cases hf : tsField e with
      | str s =>
        rw [hf] at hts
        unfold parseTimestamp
        simp only []
        cases hp : fromisoformat (replaceZ s) with
        | some d => simp only [hp]
        | none => simp [hp] at hts
      | null => rw [hf] at hts; simp at hts
      | bool b => rw [hf] at hts; simp at hts
      | num m => rw [hf] at hts; simp at hts
      | arr xs => rw [hf] at hts; simp at hts
      | obj fs => rw [hf] at hts; simp at hts
    rw [extract_withTs e n1, extract_withTs e n2, ht]
  · rw [extract_withTs e n1, extract_withTs e n2]
    exact eqUpToTimestamp_withTs _ _ _

/-- C8 (witness): a record with a parsing timestamp extracts identically at
two different clock readings. -/
theorem c8_deterministic_witness :
    tsParsesB bananaEntry = true ∧
    extract_interaction bananaEntry 0 = extract_interaction bananaEntry 5 :=
  ⟨by decide, (c8_deterministic_up_to_timestamp bananaEntry 0 5).1 (by decide)⟩

/-- C8 (counterexample): a record whose timestamp field is missing extracts
to an Interaction whose timestamp is the current clock reading, so two runs
at different times return different Interactions. -/
theorem c8_fallback_nondeterministic :
    extract_interaction noTsEntry 0 = .ok (some (noTsInteraction 0)) ∧
    extract_interaction noTsEntry 1 = .ok (some (noTsInteraction 1)) ∧
    extract_interaction noTsEntry 0 ≠ extract_interaction noTsEntry 1 := by
  refine ⟨rfl, rfl, ?_⟩
  intro h
  have h2 := congrArg
    (fun r => match r with
      | Except.ok (some i) => i.timestamp.wall
      | _ => (0 : Int)) h
  exact absurd h2 (by decide)

theorem isUA_cases (j : Json) (h : isUserOrAssistant j = true) :
    j = jstr "user" ∨ j = jstr "assistant" := by
  cases j with
  | str s =>
    unfold isUserOrAssistant at h
    simp only [Bool.or_eq_true, decide_eq_true_eq] at h
    rcases h with h | h
    · exact Or.inl (by rw [jstr, h])
    · exact Or.inr (by rw [jstr, h])
  | null => simp [isUserOrAssistant] at h
  | bool b => simp [isUserOrAssistant] at h
  | num m => simp [isUserOrAssistant] at h
  | arr xs => simp [isUserOrAssistant] at h
  | obj fs => simp [isUserOrAssistant] at h

theorem extract_ok_some_struct (e : Json) (now : Int) (i : ClaudeInteraction)
    (h : extract_interaction e now = .ok (some i)) :
    isUserOrAssistant (typeField e) = true ∧
    ∃ ms, messageField e = Json.obj ms ∧
      i.role = (pyLookup ms "role".data).getD (typeField e) := by
  cases e with
  | null => exact Except.noConfusion h
  | bool b => exact Except.noConfusion h
  | num m => exact Except.noConfusion h
  | str s => exact Except.noConfusion h
  | arr xs => exact Except.noConfusion h
  | obj fs =>
    unfold extract_interaction at h
    simp only [pyGet, ok_bind] at h
    by_cases hua : isUserOrAssistant ((pyLookup fs "type".data).getD Json.null) = false
    · rw [if_pos hua] at h
      exact Option.noConfusion (Except.ok.inj h)
    · have hua2 : isUserOrAssistant ((pyLookup fs "type".data).getD Json.null) = true := by
        simpa using hua
      rw [if_neg (by simp [hua2])] at h
      refine ⟨by simpa [typeField] using hua2, ?_⟩
      cases hmsg : (pyLookup fs "message".data).getD (Json.obj []) with
      | null => rw [hmsg] at h; exact Except.noConfusion h
      | bool b => rw [hmsg] at h; exact Except.noConfusion h
      | num m => rw [hmsg] at h; exact Except.noConfusion h
      | str s => rw [hmsg] at h; exact Except.noConfusion h
      | arr xs => rw [hmsg] at h; exact Except.noConfusion h
      | obj ms =>
        rw [hmsg] at h
        simp only [ok_bind] at h
        refine ⟨ms, by simp [messageField, hmsg], ?_⟩
        cases hc : (pyLookup ms "content".data).getD (Json.str []) with
        | arr blocks =>
          rw [hc] at h
          simp only [ok_bind] at h
          cases hj : pyJoinNl (contentLoop blocks).1 with
          | error er => rw [hj] at h; exact Except.noConfusion h
          | ok c =>
            rw [hj] at h
            simp only [ok_bind] at h
            cases hu : (pyLookup ms "usage".data).getD (Json.obj []) with
            | null => rw [hu] at h; exact Except.noConfusion h
            | bool b2 => rw [hu] at h; exact Except.noConfusion h
            | num m2 => rw [hu] at h; exact Except.noConfusion h
            | str s2 => rw [hu] at h; exact Except.noConfusion h
            | arr xs2 => rw [hu] at h; exact Except.noConfusion h
            | obj us =>
              rw [hu] at h
              simp only [ok_bind] at h
              cases ha : pyAddJson ((pyLookup us "input_tokens".data).getD (Json.num 0))
                  ((pyLookup us "cache_read_input_tokens".data).getD (Json.num 0)) with
              | error er2 => rw [ha] at h; exact Except.noConfusion h
              | ok tin =>
                rw [ha] at h
                simp only [ok_bind, pure_eq_ok, Except.ok.injEq, Option.some.injEq] at h
                rw [← h]
                simp [typeField]
        | str s1 =>
          rw [hc] at h
          simp only [ok_bind] at h
          cases hu : (pyLookup ms "usage".data).getD (Json.obj []) with
          | null => rw [hu] at h; exact Except.noConfusion h
          | bool b2 => rw [hu] at h; exact Except.noConfusion h
          | num m2 => rw [hu] at h; exact Except.noConfusion h
          | str s2 => rw [hu] at h; exact Except.noConfusion h
          | arr xs2 => rw [hu] at h; exact Except.noConfusion h
          | obj us =>
            rw [hu] at h
            simp only [ok_bind] at h
            cases ha : pyAddJson ((pyLookup us "input_tokens".data).getD (Json.num 0))
                ((pyLookup us "cache_read_input_tokens".data).getD (Json.num 0)) with
            | error er2 => rw [ha] at h; exact Except.noConfusion h
            | ok tin =>
              rw [ha] at h
              simp only [ok_bind, pure_eq_ok, Except.ok.injEq, Option.some.injEq] at h
              rw [← h]
              simp [typeField]
        | null =>
          rw [hc] at h
          simp only [ok_bind] at h
          cases hu : (pyLookup ms "usage".data).getD (Json.obj []) with
          | null => rw [hu] at h; exact Except.noConfusion h
          | bool b2 => rw [hu] at h; exact Except.noConfusion h
          | num m2 => rw [hu] at h; exact Except.noConfusion h
          | str s2 => rw [hu] at h; exact Except.noConfusion h
          | arr xs2 => rw [hu] at h; exact Except.noConfusion h
          | obj us =>
            rw [hu] at h
            simp only [ok_bind] at h
            cases ha : pyAddJson ((pyLookup us "input_tokens".data).getD (Json.num 0))
                ((pyLookup us "cache_read_input_tokens".data).getD (Json.num 0)) with
            | error er2 => rw [ha] at h; exact Except.noConfusion h
            | ok tin =>
              rw [ha] at h
              simp only [ok_bind, pure_eq_ok, Except.ok.injEq, Option.some.injEq] at h
              rw [← h]
              simp [typeField]
        | bool b1 =>
          rw [hc] at h
          simp only [ok_bind] at h
          cases hu : (pyLookup ms "usage".data).getD (Json.obj []) with
          | null => rw [hu] at h; exact Except.noConfusion h
          | bool b2 => rw [hu] at h; exact Except.noConfusion h
          | num m2 => rw [hu] at h; exact Except.noConfusion h
          | str s2 => rw [hu] at h; exact Except.noConfusion h
          | arr xs2 => rw [hu] at h; exact Except.noConfusion h
          | obj us =>
            rw [hu] at h
            simp only [ok_bind] at h
            cases ha : pyAddJson ((pyLookup us "input_tokens".data).getD (Json.num 0))
                ((pyLookup us "cache_read_input_tokens".data).getD (Json.num 0)) with
            | error er2 => rw [ha] at h; exact Except.noConfusion h
            | ok tin =>
              rw [ha] at h
              simp only [ok_bind, pure_eq_ok, Except.ok.injEq, Option.some.injEq] at h
              rw [← h]
              simp [typeField]
        | num m1 =>
          rw [hc] at h
          simp only [ok_bind] at h
          cases hu : (pyLookup ms "usage".data).getD (Json.obj []) with
          | null => rw [hu] at h; exact Except.noConfusion h
          | bool b2 => rw [hu] at h; exact Except.noConfusion h
          | num m2 => rw [hu] at h; exact Except.noConfusion h
          | str s2 => rw [hu] at h; exact Except.noConfusion h
          | arr xs2 => rw [hu] at h; exact Except.noConfusion h
          | obj us =>
            rw [hu] at h
            simp only [ok_bind] at h
            cases ha : pyAddJson ((pyLookup us "input_tokens".data).getD (Json.num 0))
                ((pyLookup us "cache_read_input_tokens".data).getD (Json.num 0)) with
            | error er2 => rw [ha] at h; exact Except.noConfusion h
            | ok tin =>
              rw [ha] at h
              simp only [ok_bind, pure_eq_ok, Except.ok.injEq, Option.some.injEq] at h
              rw [← h]
              simp [typeField]
        | obj os =>
          rw [hc] at h
          simp only [ok_bind] at h
          cases hu : (pyLookup ms "usage".data).getD (Json.obj []) with
          | null => rw [hu] at h; exact Except.noConfusion h
          | bool b2 => rw [hu] at h; exact Except.noConfusion h
          | num m2 => rw [hu] at h; exact Except.noConfusion h
          | str s2 => rw [hu] at h; exact Except.noConfusion h
          | arr xs2 => rw [hu] at h; exact Except.noConfusion h
          | obj us =>
            rw [hu] at h
            simp only [ok_bind] at h
            cases ha : pyAddJson ((pyLookup us "input_tokens".data).getD (Json.num 0))
                ((pyLookup us "cache_read_input_tokens".data).getD (Json.num 0)) with
            | error er2 => rw [ha] at h; exact Except.noConfusion h
            | ok tin =>
              rw [ha] at h
              simp only [ok_bind, pure_eq_ok, Except.ok.injEq, Option.some.injEq] at h
              rw [← h]
              simp [typeField]

/-- C9 (amended): whenever extract_interaction returns an Interaction, the
record's top-level type is user or assistant (other types are rejected), and
the stored role equals the message's role field when present and the
top-level type otherwise; in particular, when the message carries no role
field, the stored role is user or assistant.  The claim fails as stated
because the message's role field is stored verbatim even when it is neither
user nor assistant. -/
theorem c9_role_from_message_or_type (e : Json) (now : Int) (i : ClaudeInteraction)
    (h : extract_interaction e now = .ok (some i)) :
    isUserOrAssistant (typeField e) = true ∧ i.role = specRole e ∧
    (messageHasRoleB e = false → i.role = jstr "user" ∨ i.role = jstr "assistant") := by
  obtain ⟨hua, ms, hms, hrole⟩ := extract_ok_some_struct e now i h
  have hspec : specRole e = (pyLookup ms "role".data).getD (typeField e) := by
    unfold specRole
    rw [hms]
  refine ⟨hua, by rw [hspec, hrole], ?_⟩
  intro hnr
  unfold messageHasRoleB at hnr
  rw [hms] at hnr
  simp only [] at hnr
  cases hlk : pyLookup ms "role".data with
  | some v => rw [hlk] at hnr; simp at hnr
  | none =>
    rw [hrole, hlk]
    exact isUA_cases _ hua

/-- C9 (witness): the characterization applied to the record whose message
role is banana. -/
theorem c9_role_witness :
    isUserOrAssistant (typeField bananaEntry) = true ∧
    bananaInteraction.role = specRole bananaEntry ∧
    (messageHasRoleB bananaEntry = false →
      bananaInteraction.role = jstr "user" ∨ bananaInteraction.role = jstr "assistant") :=
  c9_role_from_message_or_type bananaEntry 0 bananaInteraction rfl

/-- C9 (counterexample): a user-typed record whose message carries the role
banana extracts to an Interaction whose role is banana -- neither of the two
enum values. -/
theorem c9_role_banana :
    extract_interaction bananaEntry 0 = .ok (some bananaInteraction) ∧
    bananaInteraction.role ≠ jstr "user" ∧ bananaInteraction.role ≠ jstr "assistant" := by
  refine ⟨rfl, ?_, ?_⟩ <;>
    (intro h
     have h2 := congrArg
       (fun j => match j with
         | Json.str s => s
         | _ => ([] : List Char)) h
     exact absurd h2 (by decide))

/-! splitNl structure lemmas. -/

theorem splitNl_ne_nil (s : List Char) : splitNl s ≠ [] := by
  cases s with
  | nil => simp [splitNl]
  | cons c t =>
    unfold splitNl
    by_cases h : c = '\n'
    · simp [h]
    · simp only [h, if_false]
      cases splitNl t <;> simp

theorem splitNl_nlfree (s : List Char) (h : s.all (fun c => c ≠ '\n') = true) :
    splitNl s = [s] := by
  induction s with
  | nil => rfl
  | cons c t ih =>
    simp only [List.all_cons, Bool.and_eq_true, decide_eq_true_eq] at h
    unfold splitNl
    rw [if_neg h.1]
    rw [ih h.2]

theorem splitNl_line_append (a b : List Char) (h : a.all (fun c => c ≠ '\n') = true) :
    splitNl (a ++ '\n' :: b) = a :: splitNl b := by
  induction a with
  | nil => simp [splitNl]
  | cons c t ih =>
    simp only [List.all_cons, Bool.and_eq_true, decide_eq_true_eq] at h
    rw [List.cons_append]
    conv_lhs => unfold splitNl
    rw [if_neg h.1, ih h.2]

theorem splitNl_nlfree_append (a b : List Char) (h : a.all (fun c => c ≠ '\n') = true) :
    ∀ g gs, splitNl b = g :: gs → splitNl (a ++ b) = (a ++ g) :: gs := by
  induction a with
  | nil => intro g gs hb; simpa using hb
  | cons c t ih =>
    intro g gs hb
    simp only [List.all_cons, Bool.and_eq_true, decide_eq_true_eq] at h
    rw [List.cons_append]
    conv_lhs => unfold splitNl
    rw [if_neg h.1, ih h.2 g gs hb]
    rfl

/-! Strip and whitespace lemmas. -/

theorem dropWhile_append_allP {p : Char → Bool} (u v : List Char) (h : ∀ c ∈ u, p c = true) :
    (u ++ v).dropWhile p = v.dropWhile p := by
  induction u with
  | nil => rfl
  | cons c t ih =>
    rw [List.cons_append, List.dropWhile_cons]
    rw [if_pos (h c (List.mem_cons_self _ _))]
    exact ih (fun c2 hc2 => h c2 (List.mem_cons_of_mem _ hc2))

theorem dropWhile_append_keep {p : Char → Bool} (u v : List Char)
    (h : u.dropWhile p ≠ []) : (u ++ v).dropWhile p = u.dropWhile p ++ v := by
  induction u with
  | nil => simp at h
  | cons c t ih =>
    rw [List.dropWhile_cons] at h
    rw [List.cons_append, List.dropWhile_cons, List.dropWhile_cons]
    by_cases hp : p c = true
    · rw [if_pos hp] at h
      rw [if_pos hp, if_pos hp]
      exact ih h
    · rw [if_neg hp, if_neg hp]
      rw [List.cons_append]

theorem pyStrip_allws (s : List Char) (h : ∀ c ∈ s, isWsChar c = true) : pyStrip s = [] := by
  unfold pyStrip dropTrailingWs
  have h1 : s.dropWhile isWsChar = [] := by
    rw [List.dropWhile_eq_nil_iff]
    exact h
  rw [h1]
  rfl

theorem pyStrip_cons_ws (c : Char) (s : List Char) (h : isWsChar c = true) :
    pyStrip (c :: s) = pyStrip s := by
  unfold pyStrip
  rw [List.dropWhile_cons, if_pos h]

theorem dropTrailing_append_ws (s w : List Char) (h : ∀ c ∈ w, isWsChar c = true) :
    dropTrailingWs (s ++ w) = dropTrailingWs s := by
  unfold dropTrailingWs
  rw [List.reverse_append]
  rw [dropWhile_append_allP _ _ (fun c hc => h c (List.mem_reverse.mp hc))]

theorem pyStrip_append_ws (s w : List Char) (h : ∀ c ∈ w, isWsChar c = true) :
    pyStrip (s ++ w) = pyStrip s := by
  unfold pyStrip
  by_cases hd : s.dropWhile isWsChar = []
  · have hall : ∀ c ∈ s, isWsChar c = true := List.dropWhile_eq_nil_iff.mp hd
    rw [dropWhile_append_allP _ _ hall, List.dropWhile_eq_nil_iff.mpr h, hd]
  · rw [dropWhile_append_keep _ _ hd]
    exact dropTrailing_append_ws _ _ h

theorem pyStrip_append_nl (s : List Char) : pyStrip (s ++ ['\n']) = pyStrip s := by
  refine pyStrip_append_ws s ['\n'] ?_
  intro c hc
  simp at hc
  rw [hc]
  rfl

theorem dropTrailing_decomp (s : List Char) :
    ∃ w, s = dropTrailingWs s ++ w ∧ ∀ c ∈ w, isWsChar c = true := by
  refine ⟨(s.reverse.takeWhile isWsChar).reverse, ?_, ?_⟩
  · unfold dropTrailingWs
    rw [← List.reverse_append, List.takeWhile_append_dropWhile]
    · rw [List.reverse_reverse]
  · intro c hc
    rw [List.mem_reverse] at hc
    exact List.mem_takeWhile_imp hc

theorem pyStrip_dropTrailing (s : List Char) : pyStrip (dropTrailingWs s) = pyStrip s := by
  obtain ⟨w, hw, hws⟩ := dropTrailing_decomp s
  conv_rhs => rw [hw]
  rw [pyStrip_append_ws _ _ hws]

/-! Congruence of the per-line loop under strip-equal lines and equal
tails. -/

theorem plw_line_congr (l1 l2 : List Char) (rest : List (List Char)) (now : Int)
    (hs : pyStrip l1 = pyStrip l2) :
    process_lines_w (l1 :: rest) now = process_lines_w (l2 :: rest) now := by
  conv_lhs => unfold process_lines_w
  conv_rhs => unfold process_lines_w
  rw [show parse_jsonl_line l1 = json_loads (pyStrip l1) from rfl,
    show parse_jsonl_line l2 = json_loads (pyStrip l2) from rfl, hs]

theorem pl_line_congr (l1 l2 : List Char) (rest : List (List Char)) (now : Int)
    (hs : pyStrip l1 = pyStrip l2) :
    parse_lines (l1 :: rest) now = parse_lines (l2 :: rest) now := by
  conv_lhs => unfold parse_lines
  conv_rhs => unfold parse_lines
  rw [show parse_jsonl_line l1 = json_loads (pyStrip l1) from rfl,
    show parse_jsonl_line l2 = json_loads (pyStrip l2) from rfl, hs]

theorem plw_tail_congr (x : List Char) (l1 l2 : List (List Char)) (now : Int)
    (h : process_lines_w l1 now = process_lines_w l2 now) :
    process_lines_w (x :: l1) now = process_lines_w (x :: l2) now := by
  by_cases hb : (pyStrip x).isEmpty = true
  · rw [plw_cons_blank _ _ _ hb, plw_cons_blank _ _ _ hb, h]
  · have hb2 : (pyStrip x).isEmpty = false := by simpa using hb
    cases hp : parse_jsonl_line x with
    | none => rw [plw_cons_badjson _ _ _ hb2 hp, plw_cons_badjson _ _ _ hb2 hp, h]
    | some entry =>
      by_cases ht : pyTruthy entry = true
      · cases he : extract_interaction entry now with
        | error e =>
          rw [plw_cons_err _ _ _ _ e hb2 hp ht he, plw_cons_err _ _ _ _ e hb2 hp ht he]
        | ok oi =>
          cases oi with
          | none =>
            rw [plw_cons_ok_none _ _ _ _ hb2 hp ht he, plw_cons_ok_none _ _ _ _ hb2 hp ht he, h]
          | some i =>
            rw [plw_cons_ok_some _ _ _ _ i hb2 hp ht he,
              plw_cons_ok_some _ _ _ _ i hb2 hp ht he, h]
      · have ht2 : pyTruthy entry = false := by simpa using ht
        rw [plw_cons_falsy _ _ _ _ hb2 hp ht2, plw_cons_falsy _ _ _ _ hb2 hp ht2, h]

theorem pl_tail_congr (x : List Char) (l1 l2 : List (List Char)) (now : Int)
    (h : parse_lines l1 now = parse_lines l2 now) :
    parse_lines (x :: l1) now = parse_lines (x :: l2) now := by
  by_cases hb : (pyStrip x).isEmpty = true
  · rw [pl_cons_blank _ _ _ hb, pl_cons_blank _ _ _ hb, h]
  · have hb2 : (pyStrip x).isEmpty = false := by simpa using hb
    cases hp : parse_jsonl_line x with
    | none => rw [pl_cons_badjson _ _ _ hb2 hp, pl_cons_badjson _ _ _ hb2 hp, h]
    | some entry =>
      by_cases ht : pyTruthy entry = true
      · cases he : extract_interaction entry now with
        | error e =>
          rw [pl_cons_err _ _ _ _ e hb2 hp ht he, pl_cons_err _ _ _ _ e hb2 hp ht he]
        | ok oi =>
          cases oi with
          | none =>
            rw [pl_cons_ok_none _ _ _ _ hb2 hp ht he, pl_cons_ok_none _ _ _ _ hb2 hp ht he, h]
          | some i =>
            rw [pl_cons_ok_some _ _ _ _ i hb2 hp ht he,
              pl_cons_ok_some _ _ _ _ i hb2 hp ht he, h]
      · have ht2 : pyTruthy entry = false := by simpa using ht
        rw [pl_cons_falsy _ _ _ _ hb2 hp ht2, pl_cons_falsy _ _ _ _ hb2 hp ht2, h]

/-! Whitespace-only lines contribute nothing. -/

theorem plw_allws_prefix (ls rest : List (List Char)) (now : Int)
    (h : ∀ l ∈ ls, ∀ c ∈ l, isWsChar c = true) :
    process_lines_w (ls ++ rest) now = process_lines_w rest now := by
  induction ls with
  | nil => rfl
  | cons x t ih =>
    rw [List.cons_append]
    rw [plw_cons_blank _ _ _ (by
      rw [pyStrip_allws x (h x (List.mem_cons_self _ _))]
      rfl)]
    exact ih (fun l hl => h l (List.mem_cons_of_mem _ hl))

theorem plw_allws (ls : List (List Char)) (now : Int)
    (h : ∀ l ∈ ls, ∀ c ∈ l, isWsChar c = true) :
    process_lines_w ls now = ([], false) := by
  have := plw_allws_prefix ls [] now h
  rw [List.append_nil] at this
  rw [this]
  rfl

theorem splitNl_allws (t : List Char) (h : ∀ c ∈ t, isWsChar c = true) :
    ∀ g ∈ splitNl t, ∀ c ∈ g, isWsChar c = true := by
  induction t with
  | nil =>
    intro g hg c hc
    simp [splitNl] at hg
    rw [hg] at hc
    simp at hc
  | cons x r ih =>
    intro g hg c hc
    have hx : isWsChar x = true := h x (List.mem_cons_self _ _)
    have hr : ∀ c2 ∈ r, isWsChar c2 = true := fun c2 hc2 => h c2 (List.mem_cons_of_mem _ hc2)
    unfold splitNl at hg
    by_cases hnl : x = '\n'
    · rw [if_pos hnl] at hg
      rcases List.mem_cons.mp hg with hg1 | hg2
      · rw [hg1] at hc; simp at hc
      · exact ih hr g hg2 c hc
    · rw [if_neg hnl] at hg
      cases hsp : splitNl r with
      | nil => exact absurd hsp (splitNl_ne_nil r)
      | cons g0 gs0 =>
        rw [hsp] at hg
        rcases List.mem_cons.mp hg with hg1 | hg2
        · rw [hg1] at hc
          rcases List.mem_cons.mp hc with hc1 | hc2
          · rw [hc1]; exact hx
          · exact ih hr g0 (by rw [hsp]; exact List.mem_cons_self _ _) c hc2
        · exact ih hr g (by rw [hsp]; exact List.mem_cons_of_mem _ hg2) c hc

/-! Decomposition of a string at its whitespace boundaries. -/

theorem mem_dropTrailing (s : List Char) (c : Char) (h : c ∈ dropTrailingWs s) : c ∈ s := by
  obtain ⟨w, hw, _⟩ := dropTrailing_decomp s
  rw [hw]
  exact List.mem_append_left _ h

theorem nl_decomp (s : List Char) (h : '\n' ∈ s) :
    ∃ a b, s = a ++ '\n' :: b ∧ a.all (fun c => c ≠ '\n') = true := by
  induction s with
  | nil => simp at h
  | cons x t ih =>
    by_cases hx : x = '\n'
    · exact ⟨[], t, by rw [hx]; rfl, rfl⟩
    · have ht : '\n' ∈ t := by
        rcases List.mem_cons.mp h with h1 | h2
        · exact absurd h1.symm hx
        · exact h2
      obtain ⟨a, b, hab, ha⟩ := ih ht
      refine ⟨x :: a, b, by rw [List.cons_append, ← hab], ?_⟩
      rw [List.all_cons, ha]
      simp [hx]

theorem dropTrailing_append_keep (a b : List Char)
    (hb : b.reverse.dropWhile isWsChar ≠ []) :
    dropTrailingWs (a ++ '\n' :: b) = a ++ '\n' :: dropTrailingWs b := by
  unfold dropTrailingWs
  rw [show (a ++ '\n' :: b).reverse = b.reverse ++ ('\n' :: a.reverse) from by simp]
  rw [dropWhile_append_keep _ _ hb]
  simp

/-! Stripping whitespace off the whole content does not change the emitted
interactions: leading whitespace folds into the first line (or a skipped
blank line), trailing whitespace into the last. -/

theorem plw_splitNl_dropLeading (s : List Char) (now : Int) :
    process_lines_w (splitNl (s.dropWhile isWsChar)) now =
      process_lines_w (splitNl s) now := by
  induction s with
  | nil => rfl
  | cons c t ih =>
    rw [List.dropWhile_cons]
    by_cases hw : isWsChar c = true
    · rw [if_pos hw, ih]
      by_cases hnl : c = '\n'
      · have h1 : splitNl (c :: t) = [] :: splitNl t := by
          simp only [splitNl]
          rw [if_pos hnl]
        rw [h1, plw_cons_blank [] (splitNl t) now (by rfl)]
      · cases hsp : splitNl t with
        | nil => exact absurd hsp (splitNl_ne_nil t)
        | cons g gs =>
          have h1 : splitNl (c :: t) = (c :: g) :: gs := by
            simp only [splitNl]
            rw [if_neg hnl, hsp]
          rw [h1, plw_line_congr (c :: g) g gs now (pyStrip_cons_ws c g hw)]
    · rw [if_neg hw]

theorem plw_splitNl_dropTrailing_aux (n : Nat) : ∀ s : List Char, s.length ≤ n →
    ∀ now : Int, process_lines_w (splitNl (dropTrailingWs s)) now =
      process_lines_w (splitNl s) now := by
  induction n with
  | zero =>
    intro s hlen now
    rw [List.length_eq_zero.mp (Nat.le_zero.mp hlen)]
    rfl
  | succ n ih =>
    intro s hlen now
    by_cases hnl : '\n' ∈ s
    · obtain ⟨a, b, hs, ha⟩ := nl_decomp s hnl
      subst hs
      by_cases hbw : ∀ c ∈ b, isWsChar c = true
      · have hwtail : ∀ c ∈ ('\n' :: b), isWsChar c = true := by
          intro c hc
          rcases List.mem_cons.mp hc with h1 | h2
          · rw [h1]; rfl
          · exact hbw c h2
        rw [dropTrailing_append_ws a ('\n' :: b) hwtail]
        have hafree : (dropTrailingWs a).all (fun c => c ≠ '\n') = true := by
          rw [List.all_eq_true] at ha ⊢
          intro c hc
          exact ha c (mem_dropTrailing a c hc)
        rw [splitNl_nlfree _ hafree, splitNl_line_append a b ha]
        have hb1 : process_lines_w (splitNl b) now = process_lines_w [] now := by
          rw [plw_allws _ now (splitNl_allws b hbw)]
          rfl
        rw [plw_tail_congr a (splitNl b) [] now hb1]
        exact plw_line_congr _ _ _ now (pyStrip_dropTrailing a)
      · push_neg at hbw
        obtain ⟨c0, hc0, hcw⟩ := hbw
        have hcw2 : isWsChar c0 = false := by simpa using hcw
        have hbne : b.reverse.dropWhile isWsChar ≠ [] := by
          intro hnil
          have hall := List.dropWhile_eq_nil_iff.mp hnil
          have := hall c0 (List.mem_reverse.mpr hc0)
          rw [hcw2] at this
          exact Bool.false_ne_true this
        rw [dropTrailing_append_keep a b hbne]
        rw [splitNl_line_append a _ ha, splitNl_line_append a b ha]
        have hblen : b.length ≤ n := by
          rw [List.length_append, List.length_cons] at hlen
          omega
        exact plw_tail_congr a _ _ now (ih b hblen now)
    · have hfree : s.all (fun c => c ≠ '\n') = true := by
        rw [List.all_eq_true]
        intro c hc
        exact decide_eq_true (fun h => hnl (h ▸ hc))
      have hfree2 : (dropTrailingWs s).all (fun c => c ≠ '\n') = true := by
        rw [List.all_eq_true] at hfree ⊢
        intro c hc
        exact hfree c (mem_dropTrailing s c hc)
      rw [splitNl_nlfree _ hfree2, splitNl_nlfree _ hfree]
      exact plw_line_congr _ _ _ now (pyStrip_dropTrailing s)

theorem plw_splitNl_dropTrailing (s : List Char) (now : Int) :
    process_lines_w (splitNl (dropTrailingWs s)) now =
      process_lines_w (splitNl s) now :=
  plw_splitNl_dropTrailing_aux s.length s (Nat.le_refl _) now

theorem plw_splitNl_strip (s : List Char) (now : Int) :
    process_lines_w (splitNl (pyStrip s)) now = process_lines_w (splitNl s) now := by
  unfold pyStrip
  rw [plw_splitNl_dropTrailing (s.dropWhile isWsChar) now]
  exact plw_splitNl_dropLeading s now

/-! The incremental pass over a read span equals the per-line loop on its
newline split. -/

theorem process_content_eq (c : List Char) (now : Int) :
    process_content c now = process_lines_w (splitNl c) now := by
  unfold process_content
  cases c with
  | nil => rfl
  | cons x t =>
    rw [if_neg (by simp)]
    exact plw_splitNl_strip (x :: t) now

/-! Chunks made of whole newline-terminated lines split back into exactly
those lines. -/

theorem chunkBytes_append (a b : List (List Char)) :
    chunkBytes (a ++ b) = chunkBytes a ++ chunkBytes b := by
  simp [chunkBytes]

theorem splitNl_chunkBytes (lines : List (List Char)) (rest : List Char)
    (h : ∀ l ∈ lines, l.all (fun c => c ≠ '\n') = true) :
    splitNl (chunkBytes lines ++ rest) = lines ++ splitNl rest := by
  induction lines with
  | nil =>
    simp [chunkBytes]
  | cons l t ih =>
    have h1 : chunkBytes (l :: t) ++ rest = l ++ '\n' :: (chunkBytes t ++ rest) := by
      simp [chunkBytes]
    rw [h1, splitNl_line_append l _ (h l (List.mem_cons_self _ _)),
      ih (fun l2 hl2 => h l2 (List.mem_cons_of_mem _ hl2))]
    rfl

theorem plw_append_blank (ls : List (List Char)) (now : Int) :
    process_lines_w (ls ++ [[]]) now = process_lines_w ls now := by
  induction ls with
  | nil => rfl
  | cons x t ih =>
    rw [List.cons_append]
    exact plw_tail_congr x _ _ now ih

theorem process_content_chunk (c : List (List Char)) (now : Int)
    (h : ∀ l ∈ c, l.all (fun ch => ch ≠ '\n') = true) :
    process_content (chunkBytes c) now = process_lines_w c now := by
  rw [process_content_eq]
  have h1 : splitNl (chunkBytes c) = c ++ [[]] := by
    have h2 := splitNl_chunkBytes c [] h
    rw [List.append_nil] at h2
    rw [h2]
    rfl
  rw [h1]
  exact plw_append_blank c now

/-! Reassembling the full-file parse. -/

theorem fileOfChunks_eq (chunks : List (List (List Char))) :
    fileOfChunks chunks = chunkBytes chunks.flatten := by
  induction chunks with
  | nil => rfl
  | cons c rest ih =>
    rw [show fileOfChunks (c :: rest) = chunkBytes c ++ fileOfChunks rest from by
      simp [fileOfChunks]]
    rw [List.flatten_cons, chunkBytes_append, ih]

theorem attachNl_cons2 (g h : List Char) (t : List (List Char)) :
    attachNl (g :: h :: t) = (g ++ ['\n']) :: attachNl (h :: t) := by
  conv_lhs => unfold attachNl

theorem attachNl_append_empty (ls : List (List Char)) :
    attachNl (ls ++ [[]]) = ls.map (fun l => l ++ ['\n']) := by
  induction ls with
  | nil => rfl
  | cons x t ih =>
    cases t with
    | nil => simp [attachNl]
    | cons y ys =>
      rw [List.cons_append, List.cons_append, attachNl_cons2, ← List.cons_append, ih]
      rfl

theorem parse_lines_map_nl (ls : List (List Char)) (now : Int) :
    parse_lines (ls.map (fun l => l ++ ['\n'])) now = parse_lines ls now := by
  induction ls with
  | nil => rfl
  | cons x t ih =>
    rw [List.map_cons, pl_line_congr (x ++ ['\n']) x _ now (pyStrip_append_nl x)]
    exact pl_tail_congr x _ _ now ih

/-! Replaying the snapshots. -/

theorem replay_cons (snap : List Char) (rest : List (List Char)) (pos : Nat) (now : Int) :
    replay (snap :: rest) pos now =
      ((replay_step snap pos now).1 ++ (replay rest (replay_step snap pos now).2 now).1,
       (replay rest (replay_step snap pos now).2 now).2) := by
  conv_lhs => unfold replay

theorem replay_step_aligned (acc more : List Char) (now : Int) :
    replay_step (acc ++ more) acc.length now =
      ((process_content more now).1,
       if (process_content more now).2 then acc.length else (acc ++ more).length) := by
  unfold replay_step
  rw [List.drop_left]
  rw [show max acc.length (acc ++ more).length = (acc ++ more).length from by
    rw [List.length_append]
    exact Nat.max_eq_right (Nat.le_add_right _ _)]

theorem replay_snapshots (chunks : List (List (List Char))) :
    ∀ (acc : List Char) (now : Int),
    (∀ l ∈ chunks.flatten, l.all (fun c => c ≠ '\n') = true) →
    (process_lines_w chunks.flatten now).2 = false →
    replay (snapshotsAcc acc chunks) acc.length now =
      (parse_lines chunks.flatten now, acc.length + (fileOfChunks chunks).length) := by
  induction chunks with
  | nil =>
    intro acc now _ _
    simp [snapshotsAcc, replay, parse_lines, fileOfChunks]
  | cons c rest ih =>
    intro acc now hnl hsafe
    rw [List.flatten_cons] at hsafe
    obtain ⟨hc, hrest⟩ := process_lines_flag_append c rest.flatten now hsafe
    have hnlc : ∀ l ∈ c, l.all (fun ch => ch ≠ '\n') = true := by
      intro l hl
      refine hnl l ?_
      rw [List.flatten_cons]
      exact List.mem_append_left _ hl
    have hnlrest : ∀ l ∈ rest.flatten, l.all (fun ch => ch ≠ '\n') = true := by
      intro l hl
      refine hnl l ?_
      rw [List.flatten_cons]
      exact List.mem_append_right _ hl
    show replay ((acc ++ chunkBytes c) :: snapshotsAcc (acc ++ chunkBytes c) rest)
      acc.length now = _
    rw [replay_cons, replay_step_aligned acc (chunkBytes c) now,
      process_content_chunk c now hnlc]
    rw [show (if (process_lines_w c now).2 = true then acc.length
        else (acc ++ chunkBytes c).length) = (acc ++ chunkBytes c).length from by
      rw [hc]; simp]
    rw [ih (acc ++ chunkBytes c) now hnlrest hrest]
    simp only [Prod.mk.injEq]
    constructor
    · rw [process_lines_fst c now, List.flatten_cons,
        parse_lines_append c rest.flatten now hc]
    · rw [show fileOfChunks (c :: rest) = chunkBytes c ++ fileOfChunks rest from by
        simp [fileOfChunks]]
      rw [List.length_append, List.length_append]
      omega

/-- C3: counterexample apart (recorded separately), the spec's equivalence
does hold for every chunking whose boundaries fall on record (line)
boundaries: replaying the snapshots through the incremental reader from
offset 0 emits exactly the interactions of a one-shot
parse_conversation_file over the final file contents, provided no line
raises inside extract_interaction (no truthy non-object line), since such a
line additionally desynchronizes the stored offset. -/
theorem c3_line_aligned_equiv (chunks : List (List (List Char))) (now : Int)
    (hnl : chunks.flatten.all (fun l => l.all (fun c => c ≠ '\n')) = true)
    (hsafe : (process_lines_w chunks.flatten now).2 = false) :
    (replay (snapshotsAcc [] chunks) 0 now).1 =
      parse_conversation_file (fileOfChunks chunks) now := by
  have hnl2 : ∀ l ∈ chunks.flatten, l.all (fun c => c ≠ '\n') = true :=
    List.all_eq_true.mp hnl
  rw [show (0 : Nat) = ([] : List Char).length from rfl]
  rw [replay_snapshots chunks [] now hnl2 hsafe]
  show parse_lines chunks.flatten now = _
  unfold parse_conversation_file splitLinesKeepEnds
  rw [fileOfChunks_eq]
  rw [show splitNl (chunkBytes chunks.flatten) = chunks.flatten ++ [[]] from by
    have h2 := splitNl_chunkBytes chunks.flatten [] hnl2
    rw [List.append_nil] at h2
    rw [h2]
    rfl]
  rw [attachNl_append_empty, parse_lines_map_nl]

/-- Witness for c3_line_aligned_equiv: appending the worked example's user
record and assistant record as two separate whole-line chunks and replaying
the two snapshots yields the same interactions as parsing the final
two-line file in one shot. -/
theorem c3_line_aligned_equiv_witness :
    (replay (snapshotsAcc [] [[scenUserLine], [scenAsstLine]]) 0 0).1 =
      parse_conversation_file (fileOfChunks [[scenUserLine], [scenAsstLine]]) 0 :=
  c3_line_aligned_equiv [[scenUserLine], [scenAsstLine]] 0 (by decide) (by decide)
